import Mathlib

/-!
A verification development for the AI-Telecaller repository.

The Python modules `conversation_manager.py` and `call_handler_org.py` are
shallowly embedded: dictionaries become association lists over `String`
keys, `time.time()` becomes an explicit `now : Int` argument, Python floats
become exact rationals (`ℚ`), and text that needs character-level
processing is modelled as `List Char`.
-/

/-! ## Generic helpers: Python dict / string primitives -/

/-- Lookup in an association list (Python `d[k]` / `k in d`). -/
def lookupA {β : Type} (k : String) : List (String × β) → Option β
  | [] => none
  | (k', v) :: rest => if k' = k then some v else lookupA k rest

/-- Python `d[k] = v`: replace in place if the key exists, else append. -/
def updateA {β : Type} (k : String) (v : β) : List (String × β) → List (String × β)
  | [] => [(k, v)]
  | (k', v') :: rest => if k' = k then (k, v) :: rest else (k', v') :: updateA k v rest

/-- Python `d.pop(k, None)` / `del d[k]` (dict keys are unique, so removing
every entry with the key agrees with removing the one entry). -/
def removeA {β : Type} (k : String) (l : List (String × β)) : List (String × β) :=
  l.filter (fun p => p.1 ≠ k)

/-- The whitespace characters of Python's `str.strip()` and `re` `\s`
(ASCII range). -/
def isSpaceChar (c : Char) : Bool :=
  c = ' ' || c = '\t' || c = '\n' || c = '\r' || c = '\x0b' || c = '\x0c'

/-- Python `str.lower()` on one character (ASCII range). -/
def pyLowerChar (c : Char) : Char :=
  if 'A' ≤ c ∧ c ≤ 'Z' then Char.ofNat (c.toNat + 32) else c

/-- Python `str.lower()`. -/
def pyLower (cs : List Char) : List Char :=
  cs.map pyLowerChar

/-- Python `str.strip()`. -/
def pyStrip (cs : List Char) : List Char :=
  ((cs.dropWhile isSpaceChar).reverse.dropWhile isSpaceChar).reverse

/-- Does `pat` occur at the start of `s`? (helper for substring search). -/
def listStartsWith (pat s : List Char) : Bool :=
  match pat, s with
  | [], _ => true
  | _ :: _, [] => false
  | p :: ps, c :: cs => p = c && listStartsWith ps cs

/-- Python `pat in s` (substring containment). -/
def isSubstr (pat s : List Char) : Bool :=
  match s with
  | [] => listStartsWith pat []
  | _ :: rest => listStartsWith pat s || isSubstr pat rest

/-! ## Data model of `conversation_manager.py`

`initialize_conversation` always builds the full record, so the model gives
every conversation all four sub-records (the Python `'x' in conv` guards
are vacuously true here). -/

structure InterruptionManagement where
  active_response_token : Option String
  can_interrupt : Bool
  interrupt_threshold : Nat
deriving Repr, DecidableEq

structure ConvState where
  current_topic : Option String
  intent : Option String
  context : List (String × String)
  last_interaction_time : Int
  total_interactions : Nat
  conversation_type : String
deriving Repr, DecidableEq

structure ConvMessage where
  role : String
  content : String
  timestamp : Int
  metadata : List (String × String)
  message_id : String
deriving Repr, DecidableEq

structure FollowUpContext where
  expected_topics : List String
  related_questions : List String
  context_keywords : List String
deriving Repr, DecidableEq

structure Conversation where
  history : List ConvMessage
  state : ConvState
  follow_up_context : FollowUpContext
  interruption_management : InterruptionManagement
deriving Repr, DecidableEq

/-- One entry of `active_responses`.  `interrupt_reason` conflates "key
absent" with "key set to None". -/
structure ResponseInfo where
  call_sid : String
  start_time : Int
  metadata : List (String × String)
  status : String
  interruption_count : Nat
  interrupt_reason : Option String
deriving Repr, DecidableEq

/-- The mutable state of `EnhancedConversationManager`. -/
structure ConvManager where
  conversations : List (String × Conversation)
  active_responses : List (String × ResponseInfo)
  max_history_length : Nat
deriving Repr, DecidableEq

/-- Apply `f` to the conversation stored under `sid` (Python
`self.conversations[call_sid]` mutated in place). -/
def modifyConv (cm : ConvManager) (sid : String) (f : Conversation → Conversation) :
    ConvManager :=
  { cm with conversations :=
      cm.conversations.map (fun p => if p.1 = sid then (p.1, f p.2) else p) }

/-- The fresh record built by `initialize_conversation`. -/
def freshConversation (initial_context : List (String × String)) (now : Int) :
    Conversation :=
  { history := [],
    state :=
      { current_topic := none,
        intent := none,
        context := initial_context,
        last_interaction_time := now,
        total_interactions := 0,
        conversation_type := "initial" },
    follow_up_context :=
      { expected_topics := [], related_questions := [], context_keywords := [] },
    interruption_management :=
      { active_response_token := none, can_interrupt := true, interrupt_threshold := 3 } }

/-- `initialize_conversation`: create the conversation if absent; the Bool is
the Python return value. -/
def initialize_conversation (cm : ConvManager) (call_sid : String)
    (initial_context : List (String × String)) (now : Int) : ConvManager × Bool :=
  if call_sid = "" then (cm, false)
  else
    match lookupA call_sid cm.conversations with
    | some _ => (cm, false)
    | none =>
        ({ cm with conversations :=
            updateA call_sid (freshConversation initial_context now) cm.conversations },
         true)

/-- `track_active_response`: register a new active response and point the
session's interruption management at it (unconditionally re-enabling
`can_interrupt`, line 249 of the source). -/
def track_active_response (cm : ConvManager) (call_sid response_token : String)
    (metadata : List (String × String)) (now : Int) : ConvManager × Bool :=
  if call_sid = "" ∨ response_token = "" then (cm, false)
  else
    let step := fun (cm1 : ConvManager) =>
      let fresh : ResponseInfo :=
        { call_sid := call_sid, start_time := now, metadata := metadata,
          status := "active", interruption_count := 0, interrupt_reason := none }
      let cm2 := { cm1 with
        active_responses := updateA response_token fresh cm1.active_responses }
      (modifyConv cm2 call_sid (fun conv =>
        { conv with interruption_management :=
            { conv.interruption_management with
                active_response_token := some response_token,
                can_interrupt := true } }), true)
    match lookupA call_sid cm.conversations with
    | some _ => step cm
    | none =>
        let (cm', created) := initialize_conversation cm call_sid [] now
        if created then step cm' else (cm', false)

/-- Result dictionary of `handle_response_interruption`. -/
structure InterruptResult where
  success : Bool
  message : String
  interruption_count : Option Nat
deriving Repr, DecidableEq

/-- `handle_response_interruption`: mark the response interrupted, bump its
`interruption_count`, then enforce the session's interruption threshold. -/
def handle_response_interruption (cm : ConvManager) (response_token : String)
    (interrupt_reason : Option String) : ConvManager × InterruptResult :=
  if response_token = "" then (cm, ⟨false, "Empty response token", none⟩)
  else
    match lookupA response_token cm.active_responses with
    | none => (cm, ⟨false, "Response not found", none⟩)
    | some info =>
        let info' := { info with
            status := "interrupted",
            interrupt_reason := interrupt_reason,
            interruption_count := info.interruption_count + 1 }
        let cm1 := { cm with
            active_responses := updateA response_token info' cm.active_responses }
        match lookupA info.call_sid cm1.conversations with
        | none => (cm1, ⟨true, "Response interrupted but conversation not found", none⟩)
        | some conv =>
            if info'.interruption_count > conv.interruption_management.interrupt_threshold then
              (modifyConv cm1 info.call_sid (fun c =>
                  { c with interruption_management :=
                      { c.interruption_management with can_interrupt := false } }),
               ⟨false, "Maximum interruptions reached", none⟩)
            else
              (modifyConv cm1 info.call_sid (fun c =>
                  { c with interruption_management :=
                      { c.interruption_management with active_response_token := none } }),
               ⟨true, "Response interrupted successfully", some info'.interruption_count⟩)

/-! ## Message history (`add_conversation_message`) -/

/-- Python `xs[-n:]` (note `xs[-0:]` is the whole list). -/
def pySliceLast {α : Type} (n : Nat) (xs : List α) : List α :=
  if n = 0 then xs else xs.drop (xs.length - n)

/-- The intent keyword table of `_update_conversation_intent`, in Python
dict insertion order. -/
def intentKeywords : List (String × List String) :=
  [ ("buying", ["buy", "purchase", "home", "property", "real estate"]),
    ("selling", ["sell", "listing", "market", "price", "value"]),
    ("mortgage", ["loan", "finance", "interest", "rate", "mortgage"]),
    ("investment", ["invest", "rental", "income", "property management"]),
    ("market_info", ["market", "trend", "prices", "appreciation"]) ]

/-- `_update_conversation_intent`: record the first intent (in table order)
one of whose keywords occurs in the lowercased user content. -/
def update_conversation_intent (cm : ConvManager) (call_sid : String)
    (user_content : String) : ConvManager :=
  if call_sid = "" ∨ user_content = "" then cm
  else
    match lookupA call_sid cm.conversations with
    | none => cm
    | some _ =>
        let content_lower := pyLower user_content.toList
        match intentKeywords.find?
            (fun p => p.2.any (fun kw => isSubstr kw.toList content_lower)) with
        | some (intent, _) =>
            modifyConv cm call_sid (fun conv =>
              { conv with state := { conv.state with intent := some intent } })
        | none => cm

/-- `add_conversation_message`: append a message, trim the history to the
last `2 * max_history_length` entries, refresh the state counters, and (for
user messages) update the intent.  `content = none` models a Python `None`
content. -/
def add_conversation_message (cm : ConvManager) (call_sid role : String)
    (content : Option String) (metadata : List (String × String)) (now : Int) :
    ConvManager × Bool :=
  match content with
  | none => (cm, false)
  | some contentV =>
    if call_sid = "" ∨ role = "" then (cm, false)
    else
      let step := fun (cm1 : ConvManager) =>
        match lookupA call_sid cm1.conversations with
        | none => (cm1, false)
        | some conv =>
            let msg : ConvMessage :=
              { role := role, content := contentV, timestamp := now,
                metadata := metadata,
                message_id := call_sid ++ "_" ++ toString (conv.history.length + 1) }
            let hist1 := conv.history ++ [msg]
            let hist2 :=
              if hist1.length > cm1.max_history_length * 2 then
                pySliceLast (cm1.max_history_length * 2) hist1
              else hist1
            let cm2 := modifyConv cm1 call_sid (fun c =>
              { c with history := hist2,
                       state := { c.state with
                          last_interaction_time := now,
                          total_interactions := c.state.total_interactions + 1 } })
            if role = "user" then
              (update_conversation_intent cm2 call_sid contentV, true)
            else (cm2, true)
      match lookupA call_sid cm.conversations with
      | some _ => step cm
      | none =>
          let (cm', created) := initialize_conversation cm call_sid [] now
          if created then step cm' else (cm', false)

/-! ## Follow-up relevance (`evaluate_follow_up_relevance`) -/

/-- Python `\w` for the ASCII range. -/
def isWordChar (c : Char) : Bool :=
  c.isAlpha || c.isDigit || c = '_'

/-- Does `w` start at the head of `s` with a word boundary right after it? -/
def wordBoundedAt (w s : List Char) : Bool :=
  listStartsWith w s &&
    (match s.drop w.length with
     | [] => true
     | c :: _ => !isWordChar c)

/-- Scan for `w` with word boundaries on both sides; `prevIsWord` says
whether the character before the current position is a word character. -/
def containsWordAux (w : List Char) (prevIsWord : Bool) (s : List Char) : Bool :=
  (!prevIsWord && wordBoundedAt w s) ||
    (match s with
     | [] => false
     | c :: rest => containsWordAux w (isWordChar c) rest)

/-- `re.search(r'\b<w>\b', s)` for a word `w` made of word characters. -/
def containsWord (w s : List Char) : Bool :=
  containsWordAux w false s

/-- The semantic-understanding rule `re.search(r'\b(more|further|additional|again)\b', q)`:
each alternative consists of word characters only, so the search succeeds
exactly when one of the words occurs with word boundaries around it. -/
def hasContinuationMarker (q : List Char) : Bool :=
  (["more", "further", "additional", "again"] : List String).any
    (fun w => containsWord w.toList q)

structure MatchedContext where
  expected_topics : List String
  related_questions : List String
  context_keywords : List String
deriving Repr, DecidableEq

/-- Result dictionary of `evaluate_follow_up_relevance`; `matched_context`
is `none` on the empty-input error branch. -/
structure FollowUpResult where
  is_follow_up : Bool
  confidence : ℚ
  matched_context : Option MatchedContext
  error : Option String
deriving Repr, DecidableEq

/-- One of the three accumulation loops of `evaluate_follow_up_relevance`:
add `w` to the confidence for each item whose lowercasing occurs in the
lowercased query, collecting the matched items. -/
def scoreMatches (items : List String) (query_lower : List Char) (w : ℚ) :
    ℚ × List String :=
  items.foldl
    (fun acc t =>
      if isSubstr (pyLower t.toList) query_lower then (acc.1 + w, acc.2 ++ [t]) else acc)
    (0, [])

/-- `evaluate_follow_up_relevance`. -/
def evaluate_follow_up_relevance (cm : ConvManager) (call_sid : String)
    (new_query : String) : FollowUpResult :=
  if call_sid = "" ∨ new_query = "" then
    ⟨false, 0, none, some "Empty call SID or query"⟩
  else
    match lookupA call_sid cm.conversations with
    | none => ⟨false, 0, some ⟨[], [], []⟩, none⟩
    | some conv =>
        let query_lower := pyLower new_query.toList
        let fuc := conv.follow_up_context
        let (c1, mt) := scoreMatches fuc.expected_topics query_lower 0.4
        let (c2, mq) := scoreMatches fuc.related_questions query_lower 0.3
        let (c3, mk) := scoreMatches fuc.context_keywords query_lower 0.2
        let conf := c1 + c2 + c3
        let conf := if hasContinuationMarker query_lower then conf + 0.1 else conf
        ⟨conf > 0.5, min conf 1.0, some ⟨mt, mq, mk⟩, none⟩

/-! ## Stale-conversation cleanup (`cleanup_stale_conversations`)

In the model every conversation has a `state` with a
`last_interaction_time`, so the Python "missing state counts as stale"
branch is vacuous. -/

/-- `cleanup_stale_conversations`: drop conversations older than
`max_age_seconds` (strict comparison) and their active responses; returns
the number removed. -/
def cleanup_stale_conversations (cm : ConvManager) (max_age_seconds : Int)
    (now : Int) : ConvManager × Nat :=
  if max_age_seconds ≤ 0 then (cm, 0)
  else
    let isStale := fun (p : String × Conversation) =>
      now - p.2.state.last_interaction_time > max_age_seconds
    let staleSids := (cm.conversations.filter (fun p => isStale p)).map (·.1)
    let convs' := cm.conversations.filter (fun p => ¬ isStale p)
    let resps' := cm.active_responses.filter (fun p => p.2.call_sid ∉ staleSids)
    ({ cm with conversations := convs', active_responses := resps' }, staleSids.length)

/-! ## Data model of `call_handler_org.py` -/

/-- One history entry appended by the call handler. -/
structure HistoryMsg where
  role : String
  content : String
deriving Repr, DecidableEq

/-- One entry of `self.active_calls`; `last_activity` is optional because
`_cleanup_stale_calls` repairs records missing the timestamp. -/
structure CallData where
  to_number : Option String
  status : String
  conversation_state : String
  conversation_history : List HistoryMsg
  last_activity : Option Int
deriving Repr, DecidableEq

/-- The mutable state of `CallHandler`. -/
structure CallHandlerState where
  active_calls : List (String × CallData)
deriving Repr, DecidableEq

/-- `_cleanup_stale_calls`: remove calls inactive for strictly more than
1800 seconds; calls without a timestamp get one and are kept. -/
def cleanup_stale_calls (ch : CallHandlerState) (now : Int) : CallHandlerState :=
  let repaired := ch.active_calls.map (fun p =>
    match p.2.last_activity with
    | none => (p.1, { p.2 with last_activity := some now })
    | some _ => p)
  ⟨repaired.filter (fun p =>
    match p.2.last_activity with
    | some la => ¬ (now - la > 1800)
    | none => true)⟩

/-- `_store_conversation_history`: writes a JSON file and re-raises on
failure; the file system is outside the model, so the outcome is an
explicit `persistOk` input. -/
def store_conversation_history (persistOk : Bool) (_call_sid : String)
    (_call_data : CallData) : Except String Unit :=
  if persistOk then .ok () else .error "Failed to store conversation history"

/-- The terminal call statuses of `handle_call_status`. -/
def terminalStatuses : List String :=
  ["completed", "failed", "busy", "no-answer", "canceled"]

/-- Result of `handle_call_status`. -/
structure StatusResult where
  success : Bool
deriving Repr, DecidableEq

/-- `handle_call_status`: record the new status, and on a terminal status
attempt to persist the record (the `try/except` swallows a failure) and
remove the call. -/
def handle_call_status (ch : CallHandlerState) (call_sid call_status : String)
    (persistOk : Bool) (now : Int) : CallHandlerState × StatusResult :=
  match lookupA call_sid ch.active_calls with
  | none => (ch, ⟨true⟩)
  | some cd =>
      let cd' := { cd with status := call_status, last_activity := some now }
      let ch1 : CallHandlerState := ⟨updateA call_sid cd' ch.active_calls⟩
      if call_status ∈ terminalStatuses then
        let _persisted := store_conversation_history persistOk call_sid cd'
        (⟨removeA call_sid ch1.active_calls⟩, ⟨true⟩)
      else (ch1, ⟨true⟩)

/-! ## A small regular-expression engine for the `re.search` calls of
`is_end_of_call` (alternation, optionality, `\s+`/`\s*` classes; the
patterns use no anchors or backreferences). -/

inductive RE where
  | nul : RE
  | eps : RE
  | cls (p : Char → Bool) : RE
  | alt (a b : RE) : RE
  | cat (a b : RE) : RE
  | star (a : RE) : RE

/-- Does the expression accept the empty string? -/
def RE.nullable : RE → Bool
  | .nul => false
  | .eps => true
  | .cls _ => false
  | .alt a b => a.nullable || b.nullable
  | .cat a b => a.nullable && b.nullable
  | .star _ => true

/-- Brzozowski derivative with respect to one character. -/
def RE.deriv : RE → Char → RE
  | .nul, _ => .nul
  | .eps, _ => .nul
  | .cls p, c => if p c then .eps else .nul
  | .alt a b, c => .alt (a.deriv c) (b.deriv c)
  | .cat a b, c =>
      if a.nullable then .alt (.cat (a.deriv c) b) (b.deriv c)
      else .cat (a.deriv c) b
  | .star a, c => .cat (a.deriv c) (.star a)

/-- Does the expression match some prefix of `s`? -/
def RE.matchesSomePrefix : RE → List Char → Bool
  | r, [] => r.nullable
  | r, c :: rest => r.nullable || (r.deriv c).matchesSomePrefix rest

/-- `re.search(r, s)`: does the expression match a substring of `s`? -/
def RE.search : RE → List Char → Bool
  | r, [] => r.matchesSomePrefix []
  | r, c :: rest => r.matchesSomePrefix (c :: rest) || r.search rest

/-- Literal character. -/
def RE.chr (c : Char) : RE :=
  .cls (fun d => d = c)

/-- Literal word. -/
def RE.lit (s : String) : RE :=
  s.toList.foldr (fun c r => .cat (.chr c) r) .eps

/-- `r?`. -/
def RE.opt (r : RE) : RE :=
  .alt .eps r

/-- `r+`. -/
def RE.plus (r : RE) : RE :=
  .cat r (.star r)

/-- `\s+`. -/
def wsPlus : RE :=
  RE.plus (.cls isSpaceChar)

/-- `\s*`. -/
def wsStar : RE :=
  RE.star (.cls isSpaceChar)

/-- Concatenation of a pattern sequence. -/
def seqRE (l : List RE) : RE :=
  l.foldr .cat .eps

/-- `(a|b|c)`. -/
def altRE (l : List RE) : RE :=
  l.foldr .alt .nul

/-- `don'?t`. -/
def reDonT : RE :=
  seqRE [RE.lit "don", RE.opt (RE.chr '\''), RE.lit "t"]

/-- The `end_call_phrases` list of `is_end_of_call`, in source order. -/
def endCallPhrases : List String :=
  [ "no", "nope", "no questions", "no more questions", "no other questions",
    "no other question", "don't have any questions", "don't have any other questions",
    "i don't have any questions", "nothing else", "that is all", "that's all",
    "goodbye", "bye", "thank you goodbye", "thanks goodbye", "end call",
    "hang up", "that will be all", "i am done", "i'm done", "no thanks",
    "gotta go", "have to go", "we re done", "thats it", "end this call",
    "that concludes", "thanks for your help", "i am finished", "i am good",
    "that is enough", "all set", "i will let you go", "good day", "have a good day" ]

/-- The `no_question_patterns` list of `is_end_of_call`, in source order. -/
def noQuestionPatterns : List RE :=
  [ -- no,?\s+(i|I)?\s*(don'?t|do not)?\s*have\s*(any|more|other)?\s*questions
    seqRE [RE.lit "no", RE.opt (RE.chr ','), wsPlus,
           RE.opt (altRE [RE.lit "i", RE.lit "I"]), wsStar,
           RE.opt (altRE [reDonT, RE.lit "do not"]), wsStar,
           RE.lit "have", wsStar,
           RE.opt (altRE [RE.lit "any", RE.lit "more", RE.lit "other"]), wsStar,
           RE.lit "questions"],
    -- (i|I)?\s*(don'?t|do not)\s*have\s*(any|more|other)?\s*questions
    seqRE [RE.opt (altRE [RE.lit "i", RE.lit "I"]), wsStar,
           altRE [reDonT, RE.lit "do not"], wsStar,
           RE.lit "have", wsStar,
           RE.opt (altRE [RE.lit "any", RE.lit "more", RE.lit "other"]), wsStar,
           RE.lit "questions"],
    -- that'?s\s+(all|it)
    seqRE [RE.lit "that", RE.opt (RE.chr '\''), RE.lit "s", wsPlus,
           altRE [RE.lit "all", RE.lit "it"]],
    -- nothing\s+(else|more)
    seqRE [RE.lit "nothing", wsPlus, altRE [RE.lit "else", RE.lit "more"]],
    -- (i|I)'?m\s+(good|done|finished|all\s+set)
    seqRE [altRE [RE.lit "i", RE.lit "I"], RE.opt (RE.chr '\''), RE.lit "m", wsPlus,
           altRE [RE.lit "good", RE.lit "done", RE.lit "finished",
                  seqRE [RE.lit "all", wsPlus, RE.lit "set"]]],
    -- (no|nope),?\s+(thank|thanks)\s+(you|ya)
    seqRE [altRE [RE.lit "no", RE.lit "nope"], RE.opt (RE.chr ','), wsPlus,
           altRE [RE.lit "thank", RE.lit "thanks"], wsPlus,
           altRE [RE.lit "you", RE.lit "ya"]] ]

/-- `is_end_of_call`: lowercase and trim the input, then test the fixed
phrase list (equality or containment) and the fixed pattern list, as a
disjunction. -/
def is_end_of_call (speech_text : List Char) : Bool :=
  let normalized := pyStrip (pyLower speech_text)
  endCallPhrases.any (fun p => p.toList == normalized || isSubstr p.toList normalized) ||
    noQuestionPatterns.any (fun r => r.search normalized)

/-! ## The chunker (`_chunk_response`) -/

/-- Terminal sentence punctuation of the split pattern `(?<=[.!?])\s+`. -/
def isEndPunct (c : Char) : Bool :=
  c = '.' || c = '!' || c = '?'

theorem length_dropWhile_le' (p : Char → Bool) (l : List Char) :
    (l.dropWhile p).length ≤ l.length := by
  induction l with
  | nil => simp [List.dropWhile]
  | cons c cs ih =>
      simp only [List.dropWhile]
      by_cases h : p c
      · simp [h]; omega
      · simp [h]

/-- Worker for `re.split(r'(?<=[.!?])\s+', text)`: `acc` is the reversed
current sentence; a boundary is a punctuation character directly followed
by whitespace, and the maximal whitespace run is consumed. -/
def splitSentencesGo (acc : List Char) : List Char → List (List Char)
  | [] => [acc.reverse]
  | c :: rest =>
      if isEndPunct c && (match rest with | r :: _ => isSpaceChar r | [] => false) then
        (c :: acc).reverse :: splitSentencesGo [] (rest.dropWhile isSpaceChar)
      else
        splitSentencesGo (c :: acc) rest
termination_by l => l.length
decreasing_by
  · have := length_dropWhile_le' isSpaceChar rest
    simp only [List.length_cons]
    omega
  · simp only [List.length_cons]
    omega

/-- `re.split(r'(?<=[.!?])\s+', text)`. -/
def splitSentences (cs : List Char) : List (List Char) :=
  splitSentencesGo [] cs

/-- The greedy sentence-packing loop of `_chunk_response`: `cur` is
`current_chunk`, `acc` is `chunks`. -/
def packLoop (m : Nat) : List (List Char) → List Char → List (List Char) → List (List Char)
  | [], cur, acc => if cur = [] then acc else acc ++ [pyStrip cur]
  | s :: rest, cur, acc =>
      if cur.length + s.length ≤ m then
        packLoop m rest (if cur = [] then s else cur ++ ' ' :: s) acc
      else
        packLoop m rest s (if cur = [] then acc else acc ++ [pyStrip cur])

/-- `_chunk_response` (default `max_chunk_length` is 150). -/
def chunk_response (text : List Char) (max_chunk_length : Nat := 150) :
    List (List Char) :=
  if text.length ≤ max_chunk_length then [text]
  else packLoop max_chunk_length (splitSentences text) [] []

/-! ## The answer post-processing of `handle_speech_input` (lines 444-473)

The model starts where the AI answer is available: a `none` input plays
the role of a non-string `ai_response`. -/

/-- The generic replacement answer of `handle_speech_input`. -/
def genericFallbackAnswer : List Char :=
  ("I understand you have a question about real estate. I'd be happy to help " ++
   "with information about buying, selling, or investing in properties.").toList

/-- Lines 456-473 of `handle_speech_input`: the content appended to the
conversation history (the raw `ai_response`), paired with the text passed
to `say` (validated, then truncated to 1000 characters). -/
def handle_speech_reply (ai_response : Option (List Char)) :
    Option (List Char) × List Char :=
  let historyContent := ai_response
  let checked :=
    match ai_response with
    | none => genericFallbackAnswer
    | some r => if r.isEmpty || (pyStrip r).isEmpty then genericFallbackAnswer else r
  let spoken :=
    if checked.length > 1000 then checked.take 997 ++ "...".toList else checked
  (historyContent, spoken)

/-! ## Basic lemmas about the dictionary model -/

theorem lookupA_updateA {β : Type} (k k' : String) (v : β) (l : List (String × β)) :
    lookupA k (updateA k' v l) = if k' = k then some v else lookupA k l := by
  induction l with
  | nil => simp only [updateA, lookupA]
  | cons p rest ih =>
      obtain ⟨k₀, v₀⟩ := p
      simp only [updateA, lookupA]
      split_ifs with h0 h1 h1 <;> simp_all [lookupA]

theorem lookupA_mapIf {β : Type} (k k' : String) (f : β → β) (l : List (String × β)) :
    lookupA k (l.map (fun p => if p.1 = k' then (p.1, f p.2) else p)) =
      if k' = k then (lookupA k l).map f else lookupA k l := by
  induction l with
  | nil => simp [lookupA]
  | cons p rest ih =>
      obtain ⟨k₀, v₀⟩ := p
      simp only [List.map_cons]
      by_cases h0 : k₀ = k'
      · subst h0
        rw [show (if (k₀, v₀).1 = k₀ then ((k₀, v₀).1, f (k₀, v₀).2) else (k₀, v₀)) =
              (k₀, f v₀) by simp]
        by_cases h1 : k₀ = k
        · subst h1
          simp [lookupA]
        · simp [lookupA, h1, ih]
      · rw [show (if (k₀, v₀).1 = k' then ((k₀, v₀).1, f (k₀, v₀).2) else (k₀, v₀)) =
              (k₀, v₀) by simp [h0]]
        by_cases h1 : k₀ = k
        · subst h1
          have h2 : ¬ k' = k₀ := fun h => h0 h.symm
          simp [lookupA, h2]
        · simp [lookupA, h1, ih]

theorem lookupA_modifyConv (k k' : String) (f : Conversation → Conversation)
    (cm : ConvManager) :
    lookupA k (modifyConv cm k' f).conversations =
      if k' = k then (lookupA k cm.conversations).map f
      else lookupA k cm.conversations := by
  simp [modifyConv, lookupA_mapIf]

theorem lookupA_removeA {β : Type} (k : String) (l : List (String × β)) :
    lookupA k (removeA k l) = none := by
  induction l with
  | nil => simp [removeA, lookupA]
  | cons p rest ih =>
      obtain ⟨k₀, v₀⟩ := p
      by_cases h : k₀ = k
      · subst h
        simpa [removeA, lookupA] using ih
      · simpa [removeA, lookupA, h] using ih

/-! ## Claim C1: interrupting at the threshold -/

/-- The response record after one interruption (lines 293-295 of
`conversation_manager.py`). -/
def interruptedInfo (info : ResponseInfo) (reason : Option String) : ResponseInfo :=
  ⟨info.call_sid, info.start_time, info.metadata, "interrupted",
   info.interruption_count + 1, reason⟩

/-- `can_interrupt := False` on a session (line 315). -/
def disableInterrupt (c : Conversation) : Conversation :=
  ⟨c.history, c.state, c.follow_up_context,
   ⟨c.interruption_management.active_response_token, false,
    c.interruption_management.interrupt_threshold⟩⟩

/-- Replace the `active_responses` table. -/
def setResponses (cm : ConvManager) (rs : List (String × ResponseInfo)) : ConvManager :=
  ⟨cm.conversations, rs, cm.max_history_length⟩

/-- When the bumped `interruption_count` exceeds the session threshold,
`handle_response_interruption` records the interruption, disables
`can_interrupt`, and reports failure. -/
theorem handle_response_interruption_over_threshold (cm : ConvManager) (tok : String)
    (reason : Option String) (info : ResponseInfo) (conv : Conversation)
    (h4 : tok ≠ "")
    (h1 : lookupA tok cm.active_responses = some info)
    (h2 : lookupA info.call_sid cm.conversations = some conv)
    (h3 : conv.interruption_management.interrupt_threshold < info.interruption_count + 1) :
    handle_response_interruption cm tok reason =
      (modifyConv (setResponses cm (updateA tok (interruptedInfo info reason) cm.active_responses))
          info.call_sid disableInterrupt,
       ⟨false, "Maximum interruptions reached", none⟩) := by
  simp only [handle_response_interruption, if_neg h4, h1]
  simp only [h2]
  rw [if_pos]
  · simp only [interruptedInfo, setResponses, disableInterrupt, modifyConv]
  · simpa using h3

def c1resp : ResponseInfo :=
  { call_sid := "CA1", start_time := 0, metadata := [], status := "active",
    interruption_count := 3, interrupt_reason := none }

def c1cm : ConvManager :=
  { conversations := [("CA1", freshConversation [] 0)],
    active_responses := [("tok1", c1resp)],
    max_history_length := 10 }

/-- C1 counterexample: with `interruption_count` at the threshold (3), the
interrupting call flips `can_interrupt` to false and the further attempt is
rejected, but the rejected attempt is *not* state-neutral: it moves the
response's `interruption_count` from 4 to 5. -/
theorem C1_counterexample :
    ((lookupA "CA1" (handle_response_interruption c1cm "tok1" none).1.conversations).map
        (fun c => c.interruption_management.can_interrupt) = some false) ∧
    (handle_response_interruption
        (handle_response_interruption c1cm "tok1" none).1 "tok1" none).2.success = false ∧
    ((lookupA "tok1" (handle_response_interruption c1cm "tok1" none).1.active_responses).map
        (fun r => r.interruption_count) = some 4) ∧
    ((lookupA "tok1" (handle_response_interruption
        (handle_response_interruption c1cm "tok1" none).1 "tok1" none).1.active_responses).map
        (fun r => r.interruption_count) = some 5) := by
  decide

/-- C1 (amended): interrupting a response whose `interruption_count` is at
the session's `interrupt_threshold` disables `can_interrupt` and that call
itself already returns failure; a further interrupt attempt on the same
response is likewise rejected and leaves the session's
`interruption_management` and the response's status unchanged, but it still
increments the response's `interruption_count` (and overwrites its
`interrupt_reason`). -/
theorem C1_amended_threshold_interrupt (cm : ConvManager) (tok : String)
    (reason1 reason2 : Option String) (info : ResponseInfo) (conv : Conversation)
    (h4 : tok ≠ "")
    (h1 : lookupA tok cm.active_responses = some info)
    (h2 : lookupA info.call_sid cm.conversations = some conv)
    (h3 : info.interruption_count = conv.interruption_management.interrupt_threshold) :
    (handle_response_interruption cm tok reason1).2 =
      ⟨false, "Maximum interruptions reached", none⟩ ∧
    lookupA info.call_sid (handle_response_interruption cm tok reason1).1.conversations =
      some (disableInterrupt conv) ∧
    (disableInterrupt conv).interruption_management.can_interrupt = false ∧
    lookupA tok (handle_response_interruption cm tok reason1).1.active_responses =
      some (interruptedInfo info reason1) ∧
    (handle_response_interruption
        (handle_response_interruption cm tok reason1).1 tok reason2).2 =
      ⟨false, "Maximum interruptions reached", none⟩ ∧
    lookupA info.call_sid (handle_response_interruption
        (handle_response_interruption cm tok reason1).1 tok reason2).1.conversations =
      lookupA info.call_sid (handle_response_interruption cm tok reason1).1.conversations ∧
    lookupA tok (handle_response_interruption
        (handle_response_interruption cm tok reason1).1 tok reason2).1.active_responses =
      some (interruptedInfo (interruptedInfo info reason1) reason2) := by
  have h3' : conv.interruption_management.interrupt_threshold < info.interruption_count + 1 := by
    omega
  have hstate := handle_response_interruption_over_threshold cm tok reason1 info conv h4 h1 h2 h3'
  have hconv1 : lookupA info.call_sid
      (handle_response_interruption cm tok reason1).1.conversations =
      some (disableInterrupt conv) := by
    rw [hstate]
    simp [lookupA_modifyConv, setResponses, h2]
  have hresp1 : lookupA tok (handle_response_interruption cm tok reason1).1.active_responses =
      some (interruptedInfo info reason1) := by
    rw [hstate]
    simp [modifyConv, setResponses, lookupA_updateA]
  have h2x : lookupA (interruptedInfo info reason1).call_sid
      (handle_response_interruption cm tok reason1).1.conversations =
      some (disableInterrupt conv) := hconv1
  have h3x : (disableInterrupt conv).interruption_management.interrupt_threshold <
      (interruptedInfo info reason1).interruption_count + 1 := by
    simp only [disableInterrupt, interruptedInfo]
    omega
  have hstate2 := handle_response_interruption_over_threshold
    (handle_response_interruption cm tok reason1).1 tok reason2
    (interruptedInfo info reason1) (disableInterrupt conv) h4 hresp1 h2x h3x
  have hcs : (interruptedInfo info reason1).call_sid = info.call_sid := rfl
  simp only [hcs] at hstate2
  refine ⟨by rw [hstate], hconv1, by simp [disableInterrupt], hresp1, by rw [hstate2], ?_, ?_⟩
  · rw [hstate2]
    simp only [lookupA_modifyConv, if_pos rfl, setResponses]
    rw [hconv1]
    simp [disableInterrupt]
  · rw [hstate2]
    simp [modifyConv, setResponses, lookupA_updateA]

/-- C1 witness: the amended theorem applied to a concrete manager state. -/
theorem C1_witness :
    (("tok1" : String) ≠ "" ∧
     lookupA "tok1" c1cm.active_responses = some c1resp ∧
     lookupA c1resp.call_sid c1cm.conversations = some (freshConversation [] 0) ∧
     c1resp.interruption_count =
       (freshConversation [] 0).interruption_management.interrupt_threshold) ∧
    ((handle_response_interruption c1cm "tok1" none).2 =
       ⟨false, "Maximum interruptions reached", none⟩ ∧
     lookupA c1resp.call_sid (handle_response_interruption c1cm "tok1" none).1.conversations =
       some (disableInterrupt (freshConversation [] 0)) ∧
     (disableInterrupt (freshConversation [] 0)).interruption_management.can_interrupt = false ∧
     lookupA "tok1" (handle_response_interruption c1cm "tok1" none).1.active_responses =
       some (interruptedInfo c1resp none) ∧
     (handle_response_interruption
         (handle_response_interruption c1cm "tok1" none).1 "tok1" none).2 =
       ⟨false, "Maximum interruptions reached", none⟩ ∧
     lookupA c1resp.call_sid (handle_response_interruption
         (handle_response_interruption c1cm "tok1" none).1 "tok1" none).1.conversations =
       lookupA c1resp.call_sid (handle_response_interruption c1cm "tok1" none).1.conversations ∧
     lookupA "tok1" (handle_response_interruption
         (handle_response_interruption c1cm "tok1" none).1 "tok1" none).1.active_responses =
       some (interruptedInfo (interruptedInfo c1resp none) none)) :=
  ⟨⟨by decide, by decide, by decide, by decide⟩,
   C1_amended_threshold_interrupt c1cm "tok1" none none c1resp (freshConversation [] 0)
     (by decide) (by decide) (by decide) (by decide)⟩

/-! ## Claim C4: persistence of `can_interrupt = false` -/

/-- The `can_interrupt` flag of the session stored under `sid`. -/
def canInterruptOf (cm : ConvManager) (sid : String) : Option Bool :=
  (lookupA sid cm.conversations).map (fun c => c.interruption_management.can_interrupt)

theorem canInterruptOf_modifyConv (cm : ConvManager) (csid : String)
    (f : Conversation → Conversation) (sid : String)
    (hf : ∀ c, (f c).interruption_management.can_interrupt = false ∨
      (f c).interruption_management.can_interrupt = c.interruption_management.can_interrupt)
    (h : canInterruptOf cm sid = some false) :
    canInterruptOf (modifyConv cm csid f) sid = some false := by
  simp only [canInterruptOf, lookupA_modifyConv] at *
  split_ifs with hk
  · cases hx : lookupA sid cm.conversations with
    | none => rw [hx] at h; simp at h
    | some c =>
        rw [hx] at h
        simp only [Option.map_some'] at h ⊢
        rcases hf c with h1 | h1 <;> simp_all
  · exact h

theorem canInterrupt_false_handle_interruption (cm : ConvManager) (tok : String)
    (reason : Option String) (sid : String)
    (h : canInterruptOf cm sid = some false) :
    canInterruptOf (handle_response_interruption cm tok reason).1 sid = some false := by
  simp only [handle_response_interruption]
  split
  · exact h
  · split
    · exact h
    · split
      · exact h
      · split
        · exact canInterruptOf_modifyConv _ _ _ _ (fun c => Or.inl rfl) h
        · exact canInterruptOf_modifyConv _ _ _ _ (fun c => Or.inr rfl) h

theorem canInterrupt_false_update_intent (cm : ConvManager) (csid content : String)
    (sid : String) (h : canInterruptOf cm sid = some false) :
    canInterruptOf (update_conversation_intent cm csid content) sid = some false := by
  simp only [update_conversation_intent]
  split
  · exact h
  · split
    · exact h
    · split
      · exact canInterruptOf_modifyConv _ _ _ _ (fun c => Or.inr rfl) h
      · exact h

theorem canInterrupt_false_add_message (cm : ConvManager) (csid role : String)
    (content : Option String) (md : List (String × String)) (now : Int) (sid : String)
    (h : canInterruptOf cm sid = some false) :
    canInterruptOf (add_conversation_message cm csid role content md now).1 sid = some false := by
  match content with
  | none => simpa [add_conversation_message] using h
  | some contentV =>
    simp only [add_conversation_message]
    by_cases hg : csid = "" ∨ role = ""
    · rw [if_pos hg]
      exact h
    · rw [if_neg hg]
      push_neg at hg
      obtain ⟨hcsid, hrole⟩ := hg
      cases heq : lookupA csid cm.conversations with
      | some conv =>
          simp only [heq]
          split
          · exact canInterrupt_false_update_intent _ _ _ _
              (canInterruptOf_modifyConv _ _ _ _ (fun c => Or.inr rfl) h)
          · exact canInterruptOf_modifyConv _ _ _ _ (fun c => Or.inr rfl) h
      | none =>
          have hne : csid ≠ sid := by
            intro hcs
            subst hcs
            simp [canInterruptOf, heq] at h
          have h' : canInterruptOf
              ⟨updateA csid (freshConversation [] now) cm.conversations,
               cm.active_responses, cm.max_history_length⟩ sid = some false := by
            simpa [canInterruptOf, lookupA_updateA, if_neg hne] using h
          have hlook : lookupA csid
              (updateA csid (freshConversation [] now) cm.conversations) =
              some (freshConversation [] now) := by
            rw [lookupA_updateA]
            simp
          simp only [heq, initialize_conversation, if_neg hcsid, if_pos, hlook]
          split
          · exact canInterrupt_false_update_intent _ _ _ _
              (canInterruptOf_modifyConv _ _ _ _ (fun c => Or.inr rfl) h')
          · exact canInterruptOf_modifyConv _ _ _ _ (fun c => Or.inr rfl) h'

def c4conv : Conversation :=
  { freshConversation [] 0 with
    interruption_management :=
      { active_response_token := none, can_interrupt := false, interrupt_threshold := 3 } }

def c4cm : ConvManager :=
  { conversations := [("CA2", c4conv)], active_responses := [], max_history_length := 10 }

/-- C4 counterexample: a session whose `can_interrupt` is false has it reset
to true by registering a new active response for the same call SID
(`track_active_response`, line 249), contradicting the claim that it stays
false until the session is destroyed. -/
theorem C4_counterexample :
    canInterruptOf c4cm "CA2" = some false ∧
    canInterruptOf (track_active_response c4cm "CA2" "tokX" [] 5).1 "CA2" = some true := by
  decide

/-- C4 (amended): once `can_interrupt` is false it stays false under
`handle_response_interruption` and `add_conversation_message`, but
`track_active_response` on the same call SID unconditionally re-enables
interruption (`can_interrupt := True`). -/
theorem C4_amended_can_interrupt :
    (∀ (cm : ConvManager) (tok : String) (reason : Option String) (sid : String),
      canInterruptOf cm sid = some false →
      canInterruptOf (handle_response_interruption cm tok reason).1 sid = some false) ∧
    (∀ (cm : ConvManager) (csid role : String) (content : Option String)
        (md : List (String × String)) (now : Int) (sid : String),
      canInterruptOf cm sid = some false →
      canInterruptOf (add_conversation_message cm csid role content md now).1 sid = some false) ∧
    (∀ (cm : ConvManager) (sid tok : String) (md : List (String × String)) (now : Int)
        (conv : Conversation),
      lookupA sid cm.conversations = some conv → sid ≠ "" → tok ≠ "" →
      canInterruptOf (track_active_response cm sid tok md now).1 sid = some true) := by
  refine ⟨canInterrupt_false_handle_interruption, canInterrupt_false_add_message, ?_⟩
  intro cm sid tok md now conv h hs ht
  simp only [track_active_response]
  rw [if_neg (by simp [hs, ht])]
  simp only [h]
  simp only [canInterruptOf, lookupA_modifyConv, if_pos rfl]
  rw [show lookupA sid (ConvManager.mk cm.conversations
      (updateA tok ⟨sid, now, md, "active", 0, none⟩ cm.active_responses)
      cm.max_history_length).conversations = some conv from h]
  simp

/-- C4 witness: the amended theorem applied at a concrete state whose
session has `can_interrupt = false`. -/
theorem C4_witness :
    (canInterruptOf c4cm "CA2" = some false ∧
     canInterruptOf (handle_response_interruption c4cm "tokZ" none).1 "CA2" = some false) ∧
    (canInterruptOf (add_conversation_message c4cm "CA2" "user" (some "hello") [] 1).1
        "CA2" = some false) ∧
    (lookupA "CA2" c4cm.conversations = some c4conv ∧ ("CA2" : String) ≠ "" ∧
     ("tokX" : String) ≠ "" ∧
     canInterruptOf (track_active_response c4cm "CA2" "tokX" [] 5).1 "CA2" = some true) :=
  ⟨⟨by decide, C4_amended_can_interrupt.1 c4cm "tokZ" none "CA2" (by decide)⟩,
   C4_amended_can_interrupt.2.1 c4cm "CA2" "user" (some "hello") [] 1 "CA2" (by decide),
   by decide, by decide, by decide,
   C4_amended_can_interrupt.2.2 c4cm "CA2" "tokX" [] 5 c4conv (by decide) (by decide) (by decide)⟩

/-! ## Claim C2: bounded, sliding-window history -/

/-- The history of the session stored under `sid`. -/
def historyOf (cm : ConvManager) (sid : String) : Option (List ConvMessage) :=
  (lookupA sid cm.conversations).map (fun c => c.history)

/-- The message record built by `add_conversation_message`. -/
def msgOf (csid role contentV : String) (md : List (String × String)) (now : Int)
    (conv : Conversation) : ConvMessage :=
  ⟨role, contentV, now, md, csid ++ "_" ++ toString (conv.history.length + 1)⟩

/-- For a positive cap the trimming step is "drop the oldest entries". -/
theorem trim_eq_drop {α : Type} (m : Nat) (hm : 0 < m) (l : List α) :
    (if l.length > m * 2 then pySliceLast (m * 2) l else l) = l.drop (l.length - m * 2) := by
  split_ifs with h
  · unfold pySliceLast
    rw [if_neg (by omega)]
  · rw [Nat.sub_eq_zero_of_le (by omega), List.drop_zero]

/-- For a positive cap the trimmed history never exceeds the cap. -/
theorem trim_length_le {α : Type} (m : Nat) (hm : 0 < m) (l : List α) :
    (if l.length > m * 2 then pySliceLast (m * 2) l else l).length ≤ m * 2 := by
  split_ifs with h
  · unfold pySliceLast
    rw [if_neg (by omega)]
    simp only [List.length_drop]
    omega
  · omega

theorem historyOf_update_intent (cm : ConvManager) (csid content sid : String) :
    historyOf (update_conversation_intent cm csid content) sid = historyOf cm sid := by
  simp only [update_conversation_intent]
  split
  · rfl
  · split
    · rfl
    · split
      · simp only [historyOf, lookupA_modifyConv]
        split_ifs with hk
        · cases hx : lookupA sid cm.conversations <;> simp [hx]
        · rfl
      · rfl

/-- The single-call shape of the history update: append, then drop the
oldest entries down to `2 * max_history_length`. -/
theorem add_message_history (cm : ConvManager) (csid role contentV : String)
    (md : List (String × String)) (now : Int) (conv : Conversation)
    (hm : 0 < cm.max_history_length) (hs : csid ≠ "") (hr : role ≠ "")
    (h : lookupA csid cm.conversations = some conv) :
    historyOf (add_conversation_message cm csid role (some contentV) md now).1 csid =
      some ((conv.history ++ [msgOf csid role contentV md now conv]).drop
        ((conv.history.length + 1) - cm.max_history_length * 2)) := by
  simp only [add_conversation_message]
  rw [if_neg (by simp [hs, hr])]
  simp only [h]
  have hdrop := trim_eq_drop cm.max_history_length hm
    (conv.history ++ [msgOf csid role contentV md now conv])
  split
  · rw [historyOf_update_intent]
    simp only [historyOf, lookupA_modifyConv, if_pos rfl, h, Option.map_some']
    simp only [msgOf] at hdrop ⊢
    rw [hdrop]
    simp
  · simp only [historyOf, lookupA_modifyConv, if_pos rfl, h, Option.map_some']
    simp only [msgOf] at hdrop ⊢
    rw [hdrop]
    simp

/-- The invariant of claim C2 over a whole manager state. -/
def histBound (cm : ConvManager) : Prop :=
  ∀ p ∈ cm.conversations, p.2.history.length ≤ cm.max_history_length * 2

theorem mem_updateA {β : Type} (q : String × β) (k : String) (v : β)
    (l : List (String × β)) : q ∈ updateA k v l → q = (k, v) ∨ q ∈ l := by
  induction l with
  | nil =>
      intro h
      simpa [updateA] using h
  | cons p rest ih =>
      intro h
      obtain ⟨k₀, v₀⟩ := p
      simp only [updateA] at h
      by_cases h0 : k₀ = k
      · rw [if_pos h0] at h
        rcases List.mem_cons.mp h with h1 | h1
        · exact Or.inl h1
        · exact Or.inr (List.mem_cons_of_mem _ h1)
      · rw [if_neg h0] at h
        rcases List.mem_cons.mp h with h1 | h1
        · exact Or.inr (by simp [h1])
        · rcases ih h1 with h2 | h2
          · exact Or.inl h2
          · exact Or.inr (List.mem_cons_of_mem _ h2)

theorem histBound_modifyConv (cm : ConvManager) (csid : String)
    (f : Conversation → Conversation)
    (hf : ∀ c, c.history.length ≤ cm.max_history_length * 2 →
      (f c).history.length ≤ cm.max_history_length * 2)
    (hB : histBound cm) : histBound (modifyConv cm csid f) := by
  intro p hp
  simp only [modifyConv, List.mem_map] at hp
  obtain ⟨q, hq, rfl⟩ := hp
  split_ifs with h0
  · exact hf _ (hB q hq)
  · exact hB q hq

theorem histBound_update_intent (cm : ConvManager) (csid content : String)
    (hB : histBound cm) : histBound (update_conversation_intent cm csid content) := by
  simp only [update_conversation_intent]
  split
  · exact hB
  · split
    · exact hB
    · split
      · exact histBound_modifyConv _ _ _ (fun c hc => hc) hB
      · exact hB

theorem histBound_add (cm : ConvManager) (csid role : String) (content : Option String)
    (md : List (String × String)) (now : Int)
    (hm : 0 < cm.max_history_length) (hB : histBound cm) :
    histBound (add_conversation_message cm csid role content md now).1 := by
  match content with
  | none => exact hB
  | some contentV =>
    simp only [add_conversation_message]
    by_cases hg : csid = "" ∨ role = ""
    · rw [if_pos hg]
      exact hB
    · rw [if_neg hg]
      push_neg at hg
      obtain ⟨hcsid, hrole⟩ := hg
      cases heq : lookupA csid cm.conversations with
      | some conv =>
          simp only [heq]
          split
          · exact histBound_update_intent _ _ _
              (histBound_modifyConv _ _ _ (fun c _ => trim_length_le _ hm _) hB)
          · exact histBound_modifyConv _ _ _ (fun c _ => trim_length_le _ hm _) hB
      | none =>
          have hB' : histBound
              ⟨updateA csid (freshConversation [] now) cm.conversations,
               cm.active_responses, cm.max_history_length⟩ := by
            intro p hp
            rcases mem_updateA p csid (freshConversation [] now) _ hp with h1 | h1
            · rw [h1]
              simp [freshConversation]
            · exact hB p h1
          have hlook : lookupA csid
              (updateA csid (freshConversation [] now) cm.conversations) =
              some (freshConversation [] now) := by
            rw [lookupA_updateA]
            simp
          simp only [heq, initialize_conversation, if_neg hcsid, if_pos, hlook]
          split
          · exact histBound_update_intent _ _ _
              (histBound_modifyConv _ _ _ (fun c _ => trim_length_le _ hm _) hB')
          · exact histBound_modifyConv _ _ _ (fun c _ => trim_length_le _ hm _) hB'

/-- Fold a sequence of `add_conversation_message` calls. -/
def applyAdds : ConvManager →
    List (String × String × Option String × List (String × String) × Int) → ConvManager
  | cm, [] => cm
  | cm, op :: rest =>
      applyAdds (add_conversation_message cm op.1 op.2.1 op.2.2.1 op.2.2.2.1 op.2.2.2.2).1 rest

theorem max_update_intent (cm : ConvManager) (csid content : String) :
    (update_conversation_intent cm csid content).max_history_length =
      cm.max_history_length := by
  simp only [update_conversation_intent]
  split
  · rfl
  · split
    · rfl
    · split
      · rfl
      · rfl

theorem max_add_message (cm : ConvManager) (csid role : String) (content : Option String)
    (md : List (String × String)) (now : Int) :
    (add_conversation_message cm csid role content md now).1.max_history_length =
      cm.max_history_length := by
  match content with
  | none => rfl
  | some contentV =>
    simp only [add_conversation_message]
    by_cases hg : csid = "" ∨ role = ""
    · rw [if_pos hg]
    · rw [if_neg hg]
      push_neg at hg
      obtain ⟨hcsid, hrole⟩ := hg
      cases heq : lookupA csid cm.conversations with
      | some conv =>
          simp only [heq]
          split
          · rw [max_update_intent]
            rfl
          · rfl
      | none =>
          have hlook : lookupA csid
              (updateA csid (freshConversation [] now) cm.conversations) =
              some (freshConversation [] now) := by
            rw [lookupA_updateA]
            simp
          simp only [heq, initialize_conversation, if_neg hcsid, if_pos, hlook]
          split
          · rw [max_update_intent]
            rfl
          · rfl

theorem applyAdds_histBound
    (ops : List (String × String × Option String × List (String × String) × Int))
    (cm : ConvManager) (hm : 0 < cm.max_history_length) (hB : histBound cm) :
    histBound (applyAdds cm ops) := by
  induction ops generalizing cm with
  | nil => exact hB
  | cons op rest ih =>
      have hm' : 0 < (add_conversation_message cm op.1 op.2.1 op.2.2.1
          op.2.2.2.1 op.2.2.2.2).1.max_history_length := by
        rw [max_add_message]
        exact hm
      exact ih _ hm' (histBound_add cm op.1 op.2.1 op.2.2.1 op.2.2.2.1 op.2.2.2.2 hm hB)

/-- C2: after `add_conversation_message` the touched session's history is
exactly the previous history plus the new message with the oldest entries
dropped down to `2 * max_history_length` (so the most recent messages are
retained in order), its length never exceeds `2 * max_history_length`, and
the bound is preserved across any sequence of calls. -/
theorem C2_history_bounded :
    (∀ (cm : ConvManager) (csid role contentV : String) (md : List (String × String))
        (now : Int) (conv : Conversation),
      0 < cm.max_history_length → csid ≠ "" → role ≠ "" →
      lookupA csid cm.conversations = some conv →
      historyOf (add_conversation_message cm csid role (some contentV) md now).1 csid =
        some ((conv.history ++ [msgOf csid role contentV md now conv]).drop
          ((conv.history.length + 1) - cm.max_history_length * 2)) ∧
      ∀ hist,
        historyOf (add_conversation_message cm csid role (some contentV) md now).1 csid =
          some hist →
        hist.length ≤ cm.max_history_length * 2) ∧
    (∀ (ops : List (String × String × Option String × List (String × String) × Int))
        (cm : ConvManager),
      0 < cm.max_history_length → histBound cm → histBound (applyAdds cm ops)) := by
  refine ⟨?_, applyAdds_histBound⟩
  intro cm csid role contentV md now conv hm hs hr h
  have hmain := add_message_history cm csid role contentV md now conv hm hs hr h
  refine ⟨hmain, ?_⟩
  intro hist hh
  rw [hmain, Option.some.injEq] at hh
  subst hh
  simp only [List.length_drop, List.length_append, List.length_cons, List.length_nil]
  omega

def c2cm : ConvManager :=
  { conversations := [("CA3", freshConversation [] 0)], active_responses := [],
    max_history_length := 1 }

/-- C2 witness: the theorem applied at a concrete manager with
`max_history_length = 1` and a three-call sequence. -/
theorem C2_witness :
    (0 < c2cm.max_history_length ∧ ("CA3" : String) ≠ "" ∧ ("user" : String) ≠ "" ∧
     lookupA "CA3" c2cm.conversations = some (freshConversation [] 0) ∧
     (historyOf (add_conversation_message c2cm "CA3" "user" (some "hi") [] 1).1 "CA3" =
        some (((freshConversation [] 0).history ++
          [msgOf "CA3" "user" "hi" [] 1 (freshConversation [] 0)]).drop
          (((freshConversation [] 0).history.length + 1) - c2cm.max_history_length * 2)) ∧
      ∀ hist,
        historyOf (add_conversation_message c2cm "CA3" "user" (some "hi") [] 1).1 "CA3" =
          some hist →
        hist.length ≤ c2cm.max_history_length * 2)) ∧
    (histBound c2cm ∧
     histBound (applyAdds c2cm
       [("CA3", "user", some "hi", [], 1), ("CA3", "assistant", some "hello", [], 2),
        ("CA3", "user", some "tell me more", [], 3)])) :=
  ⟨⟨by decide, by decide, by decide, by decide,
    C2_history_bounded.1 c2cm "CA3" "user" "hi" [] 1 (freshConversation [] 0)
      (by decide) (by decide) (by decide) (by decide)⟩,
   ⟨by intro p hp
       rw [show c2cm.conversations = [("CA3", freshConversation [] 0)] from rfl,
         List.mem_singleton] at hp
       subst hp
       decide,
    C2_history_bounded.2
      [("CA3", "user", some "hi", [], 1), ("CA3", "assistant", some "hello", [], 2),
       ("CA3", "user", some "tell me more", [], 3)] c2cm (by decide)
      (by intro p hp
          rw [show c2cm.conversations = [("CA3", freshConversation [] 0)] from rfl,
            List.mem_singleton] at hp
          subst hp
          decide)⟩⟩

/-! ## Claim C6: follow-up relevance scoring -/

theorem scoreMatches_go (ql : List Char) (w : ℚ) (items : List String)
    (a : ℚ) (acc : List String) :
    items.foldl
      (fun acc' t =>
        if isSubstr (pyLower t.toList) ql then (acc'.1 + w, acc'.2 ++ [t]) else acc')
      (a, acc) =
    (a + w * ((items.filter (fun t => isSubstr (pyLower t.toList) ql)).length : ℚ),
     acc ++ items.filter (fun t => isSubstr (pyLower t.toList) ql)) := by
  induction items generalizing a acc with
  | nil => simp
  | cons t rest ih =>
      by_cases ht : isSubstr (pyLower t.toList) ql
      · simp only [List.foldl_cons, if_pos ht, ih, List.filter_cons, ht, if_true]
        rw [Prod.mk.injEq]
        refine ⟨by push_cast [List.length_cons]; ring, by simp⟩
      · rw [List.foldl_cons, if_neg ht, ih, List.filter_cons, if_neg ht]

theorem scoreMatches_spec (items : List String) (ql : List Char) (w : ℚ) :
    scoreMatches items ql w =
      (w * ((items.filter (fun t => isSubstr (pyLower t.toList) ql)).length : ℚ),
       items.filter (fun t => isSubstr (pyLower t.toList) ql)) := by
  unfold scoreMatches
  rw [scoreMatches_go]
  simp

/-- The confidence formula as the specification words it: 0.4 per matched
expected topic, 0.3 per matched related question, 0.2 per matched context
keyword, 0.1 for a continuation marker (uncapped). -/
def specFollowUpConfidence (conv : Conversation) (q : String) : ℚ :=
  0.4 * ((conv.follow_up_context.expected_topics.filter
      (fun t => isSubstr (pyLower t.toList) (pyLower q.toList))).length : ℚ) +
  0.3 * ((conv.follow_up_context.related_questions.filter
      (fun t => isSubstr (pyLower t.toList) (pyLower q.toList))).length : ℚ) +
  0.2 * ((conv.follow_up_context.context_keywords.filter
      (fun t => isSubstr (pyLower t.toList) (pyLower q.toList))).length : ℚ) +
  (if hasContinuationMarker (pyLower q.toList) then (0.1 : ℚ) else 0)

/-- C6: for an existing session and non-empty query the returned confidence
is the accumulated formula capped at 1, and `is_follow_up` holds exactly
when the uncapped accumulated confidence exceeds 0.5. -/
theorem C6_follow_up_confidence (cm : ConvManager) (sid q : String) (conv : Conversation)
    (hs : sid ≠ "") (hq : q ≠ "") (h : lookupA sid cm.conversations = some conv) :
    (evaluate_follow_up_relevance cm sid q).confidence =
      min (specFollowUpConfidence conv q) 1 ∧
    ((evaluate_follow_up_relevance cm sid q).is_follow_up = true ↔
      specFollowUpConfidence conv q > 0.5) ∧
    (evaluate_follow_up_relevance cm sid q).confidence ≤ 1 ∧
    0 ≤ (evaluate_follow_up_relevance cm sid q).confidence := by
  have key : (evaluate_follow_up_relevance cm sid q).confidence =
      min (specFollowUpConfidence conv q) 1 ∧
      ((evaluate_follow_up_relevance cm sid q).is_follow_up = true ↔
        specFollowUpConfidence conv q > 0.5) := by
    simp only [evaluate_follow_up_relevance]
    rw [if_neg (by simp [hs, hq])]
    simp only [h, scoreMatches_spec, specFollowUpConfidence]
    constructor
    · split_ifs with hmk <;> simp <;> ring_nf
    · rw [decide_eq_true_iff]
      split_ifs with hmk
      · constructor <;> intro hx <;> linarith
      · constructor <;> intro hx <;> linarith
  have hconf0 : 0 ≤ specFollowUpConfidence conv q := by
    unfold specFollowUpConfidence
    have h1 : (0 : ℚ) ≤ ((conv.follow_up_context.expected_topics.filter
        (fun t => isSubstr (pyLower t.toList) (pyLower q.toList))).length : ℚ) := by
      positivity
    have h2 : (0 : ℚ) ≤ ((conv.follow_up_context.related_questions.filter
        (fun t => isSubstr (pyLower t.toList) (pyLower q.toList))).length : ℚ) := by
      positivity
    have h3 : (0 : ℚ) ≤ ((conv.follow_up_context.context_keywords.filter
        (fun t => isSubstr (pyLower t.toList) (pyLower q.toList))).length : ℚ) := by
      positivity
    split_ifs <;> linarith
  refine ⟨key.1, key.2, ?_, ?_⟩
  · rw [key.1]
    exact min_le_right _ _
  · rw [key.1]
    exact le_min hconf0 (by norm_num)

def c6conv : Conversation :=
  { freshConversation [] 0 with
    follow_up_context :=
      { expected_topics := ["mortgage"], related_questions := ["what are rates"],
        context_keywords := ["loan"] } }

def c6cm : ConvManager :=
  { conversations := [("CA4", c6conv)], active_responses := [], max_history_length := 10 }

/-- C6 witness: the theorem applied to a query matching one topic, one
keyword and a continuation marker. -/
theorem C6_witness :
    (("CA4" : String) ≠ "" ∧
     ("tell me more about mortgage loan options" : String) ≠ "" ∧
     lookupA "CA4" c6cm.conversations = some c6conv) ∧
    ((evaluate_follow_up_relevance c6cm "CA4"
        "tell me more about mortgage loan options").confidence =
      min (specFollowUpConfidence c6conv "tell me more about mortgage loan options") 1 ∧
     ((evaluate_follow_up_relevance c6cm "CA4"
        "tell me more about mortgage loan options").is_follow_up = true ↔
      specFollowUpConfidence c6conv "tell me more about mortgage loan options" > 0.5) ∧
     (evaluate_follow_up_relevance c6cm "CA4"
        "tell me more about mortgage loan options").confidence ≤ 1 ∧
     0 ≤ (evaluate_follow_up_relevance c6cm "CA4"
        "tell me more about mortgage loan options").confidence) :=
  ⟨⟨by decide, by decide, by decide⟩,
   C6_follow_up_confidence c6cm "CA4" "tell me more about mortgage loan options" c6conv
     (by decide) (by decide) (by decide)⟩

/-! ## Claim C7: strict inactivity threshold of the sweepers -/

/-- C7: for a positive threshold `T`, one sweep keeps a session exactly when
`now - last_interaction_time ≤ T` (strict removal), so a session last active
at `now - T - 1` is removed and one last active at `now - T + 1` is kept;
the returned count is the number of stale sessions.  The call handler's
`_cleanup_stale_calls` obeys the same strict rule with `T = 1800` for calls
that carry a timestamp. -/
theorem C7_cleanup_threshold (cm : ConvManager) (T now : Int) (hT : 0 < T) :
    (∀ (sid : String) (conv : Conversation),
      (sid, conv) ∈ (cleanup_stale_conversations cm T now).1.conversations ↔
      (sid, conv) ∈ cm.conversations ∧ now - conv.state.last_interaction_time ≤ T) ∧
    (∀ (sid : String) (conv : Conversation), (sid, conv) ∈ cm.conversations →
      conv.state.last_interaction_time = now - T - 1 →
      (sid, conv) ∉ (cleanup_stale_conversations cm T now).1.conversations) ∧
    (∀ (sid : String) (conv : Conversation), (sid, conv) ∈ cm.conversations →
      conv.state.last_interaction_time = now - T + 1 →
      (sid, conv) ∈ (cleanup_stale_conversations cm T now).1.conversations) ∧
    (∀ (ch : CallHandlerState) (now' : Int) (sid : String) (cd : CallData) (la : Int),
      cd.last_activity = some la → (sid, cd) ∈ ch.active_calls →
      ((sid, cd) ∈ (cleanup_stale_calls ch now').active_calls ↔ now' - la ≤ 1800)) := by
  have hmem : ∀ (sid : String) (conv : Conversation),
      (sid, conv) ∈ (cleanup_stale_conversations cm T now).1.conversations ↔
      (sid, conv) ∈ cm.conversations ∧ now - conv.state.last_interaction_time ≤ T := by
    intro sid conv
    simp only [cleanup_stale_conversations]
    rw [if_neg (by omega)]
    simp only [List.mem_filter, decide_eq_true_iff]
    constructor
    · rintro ⟨h1, h2⟩
      exact ⟨h1, by omega⟩
    · rintro ⟨h1, h2⟩
      exact ⟨h1, by omega⟩
  refine ⟨hmem, ?_, ?_, ?_⟩
  · intro sid conv h1 h2 hmem'
    have := (hmem sid conv).mp hmem'
    omega
  · intro sid conv h1 h2
    exact (hmem sid conv).mpr ⟨h1, by omega⟩
  · intro ch now' sid cd la hla hin
    simp only [cleanup_stale_calls, List.mem_filter, List.mem_map]
    constructor
    · rintro ⟨⟨q, hq, hgq⟩, hpred⟩
      rw [hla] at hpred
      simp only [decide_eq_true_iff] at hpred
      omega
    · intro hle
      refine ⟨⟨(sid, cd), hin, ?_⟩, ?_⟩
      · rw [hla]
      · rw [hla]
        simp only [decide_eq_true_iff]
        omega

def c7cm : ConvManager :=
  { conversations := [("OLD", freshConversation [] 89), ("NEW", freshConversation [] 91)],
    active_responses := [], max_history_length := 10 }

/-- C7 witness: with `T = 10` and `now = 100`, the session last active at 89
(`now - T - 1`) is removed and the one last active at 91 (`now - T + 1`) is
kept. -/
theorem C7_witness :
    ((0 : Int) < 10 ∧
     ("OLD", freshConversation [] 89) ∈ c7cm.conversations ∧
     (freshConversation [] 89).state.last_interaction_time = 100 - 10 - 1 ∧
     ("NEW", freshConversation [] 91) ∈ c7cm.conversations ∧
     (freshConversation [] 91).state.last_interaction_time = 100 - 10 + 1) ∧
    (("OLD", freshConversation [] 89) ∉
        (cleanup_stale_conversations c7cm 10 100).1.conversations ∧
     ("NEW", freshConversation [] 91) ∈
        (cleanup_stale_conversations c7cm 10 100).1.conversations) :=
  ⟨⟨by decide, by decide, by decide, by decide, by decide⟩,
   (C7_cleanup_threshold c7cm 10 100 (by decide)).2.1 "OLD" (freshConversation [] 89)
     (by decide) (by decide),
   (C7_cleanup_threshold c7cm 10 100 (by decide)).2.2.1 "NEW" (freshConversation [] 91)
     (by decide) (by decide)⟩

/-! ## Claim C8: terminal status removes the call, even if persistence fails -/

/-- C8: a terminal status update removes the call record and reports
success, and the outcome does not depend on whether persisting the record
succeeded (the `try/except` swallows the failure). -/
theorem C8_terminal_removal (ch : CallHandlerState) (sid status : String)
    (persistOk : Bool) (now : Int) (cd : CallData)
    (h : lookupA sid ch.active_calls = some cd)
    (ht : status ∈ terminalStatuses) :
    lookupA sid (handle_call_status ch sid status persistOk now).1.active_calls = none ∧
    (handle_call_status ch sid status persistOk now).2.success = true ∧
    (∀ persistOk' : Bool,
      handle_call_status ch sid status persistOk now =
        handle_call_status ch sid status persistOk' now) := by
  refine ⟨?_, ?_, fun _ => rfl⟩
  · simp only [handle_call_status, h]
    rw [if_pos ht]
    exact lookupA_removeA _ _
  · simp only [handle_call_status, h]
    rw [if_pos ht]

def c8data : CallData :=
  { to_number := some "+15550100", status := "in-progress",
    conversation_state := "in-progress",
    conversation_history := [⟨"assistant", "Hello"⟩], last_activity := some 50 }

def c8ch : CallHandlerState :=
  ⟨[("CA9", c8data)]⟩

/-- C8 witness: a `completed` status removes the concrete call whether or
not persistence succeeds. -/
theorem C8_witness :
    (lookupA "CA9" c8ch.active_calls = some c8data ∧
     ("completed" : String) ∈ terminalStatuses) ∧
    (lookupA "CA9" (handle_call_status c8ch "CA9" "completed" false 60).1.active_calls =
       none ∧
     (handle_call_status c8ch "CA9" "completed" false 60).2.success = true ∧
     (∀ persistOk' : Bool,
       handle_call_status c8ch "CA9" "completed" false 60 =
         handle_call_status c8ch "CA9" "completed" persistOk' 60)) :=
  ⟨⟨by decide, by decide⟩,
   C8_terminal_removal c8ch "CA9" "completed" false 60 c8data (by decide) (by decide)⟩

/-! ## Claim C5: the call termination detector -/

theorem char_toNat_ofNat (n : Nat) (h : n.isValidChar) : (Char.ofNat n).toNat = n := by
  simp [Char.ofNat, h, Char.toNat, Char.ofNatAux, UInt32.toNat, BitVec.toNat_ofNatLt,
    UInt32.ofNatCore]

theorem valid32 (c : Char) (h1 : 65 ≤ c.toNat) (h2 : c.toNat ≤ 90) :
    (c.toNat + 32).isValidChar := by
  left
  omega

theorem pyLowerChar_toNat (c : Char) :
    (pyLowerChar c).toNat =
      if 65 ≤ c.toNat ∧ c.toNat ≤ 90 then c.toNat + 32 else c.toNat := by
  unfold pyLowerChar
  by_cases h : 'A' ≤ c ∧ c ≤ 'Z'
  · rw [if_pos h, if_pos ⟨h.1, h.2⟩]
    exact char_toNat_ofNat _ (valid32 c h.1 h.2)
  · rw [if_neg h, if_neg (fun hc => h ⟨hc.1, hc.2⟩)]

theorem pyLowerChar_idem (c : Char) : pyLowerChar (pyLowerChar c) = pyLowerChar c := by
  have key : ¬ ('A' ≤ pyLowerChar c ∧ pyLowerChar c ≤ 'Z') := by
    intro hc
    have h1 : 65 ≤ (pyLowerChar c).toNat := hc.1
    have h2 : (pyLowerChar c).toNat ≤ 90 := hc.2
    rw [pyLowerChar_toNat] at h1 h2
    split_ifs at h1 h2 <;> omega
  generalize hd : pyLowerChar c = d at key ⊢
  unfold pyLowerChar
  rw [if_neg key]

theorem pyLower_idem (s : List Char) : pyLower (pyLower s) = pyLower s := by
  simp only [pyLower, List.map_map]
  exact List.map_congr_left (fun c _ => pyLowerChar_idem c)

/-- C5: `is_end_of_call` accepts "No thank you, that's all", rejects
"What about FHA loans?", is case-insensitive, and holds exactly when the
lowercased trimmed text equals or contains a phrase from the fixed closing
list, or some fixed pattern matches it — a pure disjunction. -/
theorem C5_end_of_call :
    is_end_of_call ("No thank you, that's all".toList) = true ∧
    is_end_of_call ("What about FHA loans?".toList) = false ∧
    (∀ s : List Char, is_end_of_call (pyLower s) = is_end_of_call s) ∧
    (∀ s : List Char, is_end_of_call s = true ↔
      ((∃ p ∈ endCallPhrases, p.toList = pyStrip (pyLower s) ∨
          isSubstr p.toList (pyStrip (pyLower s)) = true) ∨
       (∃ r ∈ noQuestionPatterns, r.search (pyStrip (pyLower s)) = true))) := by
  refine ⟨by decide, by decide, ?_, ?_⟩
  · intro s
    unfold is_end_of_call
    rw [pyLower_idem]
  · intro s
    unfold is_end_of_call
    simp only [Bool.or_eq_true, List.any_eq_true, beq_iff_eq]

/-! ## Claims C9 and C3: the chunker -/

theorem splitSentencesGo_nil (acc : List Char) :
    splitSentencesGo acc [] = [acc.reverse] := by
  rw [splitSentencesGo.eq_def]

theorem splitSentencesGo_cons (acc : List Char) (c : Char) (rest : List Char) :
    splitSentencesGo acc (c :: rest) =
      if isEndPunct c && (match rest with | r :: _ => isSpaceChar r | [] => false) then
        (c :: acc).reverse :: splitSentencesGo [] (rest.dropWhile isSpaceChar)
      else
        splitSentencesGo (c :: acc) rest := by
  rw [splitSentencesGo.eq_def]

theorem isEndPunct_not_space (c : Char) (h : isEndPunct c = true) :
    isSpaceChar c = false := by
  simp only [isEndPunct, Bool.or_eq_true, decide_eq_true_eq] at h
  rcases h with (h | h) | h <;> subst h <;> decide

theorem dropWhile_head_not (p : Char → Bool) (l : List Char) (c : Char) (cs : List Char)
    (h : l.dropWhile p = c :: cs) : p c = false := by
  induction l with
  | nil => cases h
  | cons a as ih =>
      rw [List.dropWhile_cons] at h
      split_ifs at h with hp
      · exact ih h
      · cases h
        simpa using hp

/-- Every sentence produced by the splitter contains a non-whitespace
character, or is empty, or is the whole remaining input. -/
theorem splitSentencesGo_mem (l acc s : List Char) (hs : s ∈ splitSentencesGo acc l) :
    (∃ c ∈ s, isSpaceChar c = false) ∨ s = [] ∨ s = acc.reverse ++ l := by
  induction acc, l using splitSentencesGo.induct with
  | case1 acc =>
      rw [splitSentencesGo_nil, List.mem_singleton] at hs
      right; right
      simp [hs]
  | case2 acc c rest hcond ih =>
      rw [splitSentencesGo_cons, if_pos hcond] at hs
      rcases List.mem_cons.mp hs with h | h
      · left
        refine ⟨c, ?_, ?_⟩
        · simp [h]
        · exact isEndPunct_not_space c (Bool.and_eq_true _ _ |>.mp hcond).1
      · rcases ih h with h1 | h1 | h1
        · exact Or.inl h1
        · exact Or.inr (Or.inl h1)
        · cases hd : rest.dropWhile isSpaceChar with
          | nil =>
              right; left
              rw [h1, hd]
              simp
          | cons d ds =>
              left
              refine ⟨d, ?_, dropWhile_head_not _ _ _ _ hd⟩
              rw [h1, hd]
              simp
  | case3 acc c rest hcond ih =>
      rw [splitSentencesGo_cons, if_neg hcond] at hs
      rcases ih hs with h1 | h1 | h1
      · exact Or.inl h1
      · exact Or.inr (Or.inl h1)
      · right; right
        rw [h1]
        simp

theorem mem_dropWhile_of_not (p : Char → Bool) (l : List Char) (c : Char)
    (hc : c ∈ l) (hp : p c = false) : c ∈ l.dropWhile p := by
  have hsplit := List.takeWhile_append_dropWhile (p := p) (l := l)
  rcases List.mem_append.mp (hsplit ▸ hc) with h | h
  · have := List.mem_takeWhile_imp h
    rw [hp] at this
    cases this
  · exact h

/-- Stripping a list that contains a non-whitespace character leaves it
non-empty. -/
theorem pyStrip_ne_nil (cs : List Char) (c : Char) (hc : c ∈ cs)
    (hp : isSpaceChar c = false) : pyStrip cs ≠ [] := by
  unfold pyStrip
  have h1 : c ∈ cs.dropWhile isSpaceChar := mem_dropWhile_of_not _ _ _ hc hp
  have h2 : c ∈ (cs.dropWhile isSpaceChar).reverse := List.mem_reverse.mpr h1
  have h3 : c ∈ (cs.dropWhile isSpaceChar).reverse.dropWhile isSpaceChar :=
    mem_dropWhile_of_not _ _ _ h2 hp
  have h4 : c ∈ ((cs.dropWhile isSpaceChar).reverse.dropWhile isSpaceChar).reverse :=
    List.mem_reverse.mpr h3
  exact List.ne_nil_of_mem h4

/-- The packing loop never emits an empty chunk when every pending sentence
is empty or contains a non-whitespace character. -/
theorem packLoop_ne_nil (m : Nat) (L : List (List Char)) (cur : List Char)
    (acc : List (List Char))
    (hL : ∀ s ∈ L, s = [] ∨ ∃ c ∈ s, isSpaceChar c = false)
    (hcur : cur = [] ∨ ∃ c ∈ cur, isSpaceChar c = false)
    (hacc : ∀ ch ∈ acc, ch ≠ []) :
    ∀ ch ∈ packLoop m L cur acc, ch ≠ [] := by
  induction L generalizing cur acc with
  | nil =>
      intro ch hch
      simp only [packLoop] at hch
      split_ifs at hch with h0
      · exact hacc ch hch
      · rcases List.mem_append.mp hch with h | h
        · exact hacc ch h
        · rw [List.mem_singleton] at h
          subst h
          rcases hcur with h1 | ⟨c, hc, hp⟩
          · exact absurd h1 h0
          · exact pyStrip_ne_nil _ _ hc hp
  | cons s rest ih =>
      intro ch hch
      simp only [packLoop] at hch
      by_cases h0 : cur.length + s.length ≤ m
      · rw [if_pos h0] at hch
        refine ih _ _ (fun t ht => hL t (List.mem_cons_of_mem _ ht)) ?_ hacc ch hch
        split_ifs with h1
        · exact hL s (List.mem_cons_self _ _)
        · rcases hcur with h2 | ⟨c, hc, hp⟩
          · exact absurd h2 h1
          · exact Or.inr ⟨c, List.mem_append_left _ hc, hp⟩
      · rw [if_neg h0] at hch
        refine ih _ _ (fun t ht => hL t (List.mem_cons_of_mem _ ht))
          (hL s (List.mem_cons_self _ _)) ?_ ch hch
        intro t ht
        split_ifs at ht with h1
        · exact hacc t ht
        · rcases List.mem_append.mp ht with h | h
          · exact hacc t h
          · rw [List.mem_singleton] at h
            subst h
            rcases hcur with h2 | ⟨c, hc, hp⟩
            · exact absurd h2 h1
            · exact pyStrip_ne_nil _ _ hc hp

/-- C9 counterexample: the empty text has length 0 ≤ max_len, and the
chunker returns `[""]`, a sequence containing an empty chunk. -/
theorem C9_counterexample :
    ([] : List Char).length ≤ 150 ∧
    chunk_response [] 150 = [[]] ∧
    ([] : List Char) ∈ chunk_response [] 150 := by
  decide

/-- C9 (amended): a text of length at most `max_len` comes back unchanged
as a single chunk, and no chunk is ever empty provided the text contains at
least one non-whitespace character. -/
theorem C9_amended_chunker :
    (∀ (text : List Char) (m : Nat), text.length ≤ m → chunk_response text m = [text]) ∧
    (∀ (text : List Char) (m : Nat) (c : Char), c ∈ text → isSpaceChar c = false →
      ∀ chunk ∈ chunk_response text m, chunk ≠ []) := by
  constructor
  · intro text m h
    unfold chunk_response
    rw [if_pos h]
  · intro text m c hc hp chunk hch
    unfold chunk_response at hch
    split_ifs at hch with h0
    · rw [List.mem_singleton] at hch
      subst hch
      exact List.ne_nil_of_mem hc
    · refine packLoop_ne_nil m (splitSentences text) [] [] ?_ (Or.inl rfl)
        (by simp) chunk hch
      intro s hs
      rcases splitSentencesGo_mem text [] s hs with h1 | h1 | h1
      · exact Or.inr h1
      · exact Or.inl h1
      · right
        refine ⟨c, ?_, hp⟩
        rw [h1]
        simpa using hc

/-- C9 witness: the amended theorem at a short text and at a long text. -/
theorem C9_witness :
    (("Hi.".toList).length ≤ 150 ∧ chunk_response "Hi.".toList 150 = ["Hi.".toList]) ∧
    ('a' ∈ "abcd. fghi.".toList ∧ isSpaceChar 'a' = false ∧
     ∀ chunk ∈ chunk_response "abcd. fghi.".toList 10, chunk ≠ []) :=
  ⟨⟨by decide, C9_amended_chunker.1 "Hi.".toList 150 (by decide)⟩,
   by decide, by decide,
   C9_amended_chunker.2 "abcd. fghi.".toList 10 'a' (by decide) (by decide)⟩

/-! ## Claim C10: answer length handling in `handle_speech_input` -/

set_option maxRecDepth 4000 in
theorem generic_len : genericFallbackAnswer.length = 140 := by
  decide

theorem speech_reply_none : (handle_speech_reply none).2 = genericFallbackAnswer := by
  simp only [handle_speech_reply]
  rw [if_neg (by rw [generic_len]; omega)]

theorem speech_reply_invalid (r : List Char) (hstrip : pyStrip r = []) :
    (handle_speech_reply (some r)).2 = genericFallbackAnswer := by
  simp only [handle_speech_reply]
  have h2 : (pyStrip r).isEmpty = true := by
    rw [hstrip]
    rfl
  have hcond : (r.isEmpty || (pyStrip r).isEmpty) = true := by
    rw [h2]
    simp
  rw [hcond, if_pos rfl]
  rw [if_neg (by rw [generic_len]; omega)]

theorem speech_reply_valid (r : List Char) (hne : r ≠ []) (hstrip : pyStrip r ≠ []) :
    (handle_speech_reply (some r)).2 =
      if 1000 < r.length then r.take 997 ++ "...".toList else r := by
  simp only [handle_speech_reply]
  have h1 : r.isEmpty = false := by
    cases r
    · exact absurd rfl hne
    · rfl
  have h2 : (pyStrip r).isEmpty = false := by
    cases hps : pyStrip r
    · exact absurd hps hstrip
    · rfl
  have hcond : (r.isEmpty || (pyStrip r).isEmpty) = false := by
    rw [h1, h2]
    decide
  rw [hcond]
  simp only [Bool.false_eq_true, if_false]

/-- C10 counterexample: the history append happens before the validity
check and truncation (lines 456-468 of `call_handler_org.py`), so a
1001-character AI response is stored untruncated in the conversation
history even though the spoken text is cut to 1000 characters. -/
theorem C10_counterexample :
    (handle_speech_reply (some (List.replicate 1001 'a'))).1 =
      some (List.replicate 1001 'a') ∧
    (List.replicate 1001 'a').length = 1001 ∧
    (handle_speech_reply (some (List.replicate 1001 'a'))).2 =
      List.replicate 997 'a' ++ "...".toList ∧
    (handle_speech_reply (some (List.replicate 1001 'a'))).2.length = 1000 := by
  have hmem : 'a' ∈ List.replicate 1001 'a' :=
    List.mem_replicate.mpr ⟨by norm_num, rfl⟩
  have hne : List.replicate 1001 'a' ≠ [] := List.ne_nil_of_mem hmem
  have hstrip : pyStrip (List.replicate 1001 'a') ≠ [] :=
    pyStrip_ne_nil _ 'a' hmem (by decide)
  have hval := speech_reply_valid _ hne hstrip
  rw [if_pos (by rw [List.length_replicate]; omega)] at hval
  have h3 : ("...".toList).length = 3 := by decide
  refine ⟨rfl, by rw [List.length_replicate], ?_, ?_⟩
  · rw [hval, List.take_replicate]
    norm_num
  · rw [hval]
    simp only [List.length_append, List.length_take, List.length_replicate, h3]
    norm_num

/-- C10 (amended): the spoken answer is at most 1000 characters — a longer
valid response is truncated to its first 997 characters plus `"..."`, and
an absent (non-string) or whitespace-only response is replaced by the fixed
non-empty generic answer — while the history message keeps the raw,
untruncated AI response. -/
theorem C10_amended_reply (ai : Option (List Char)) :
    (handle_speech_reply ai).1 = ai ∧
    (handle_speech_reply ai).2.length ≤ 1000 ∧
    (∀ r, ai = some r → 1000 < r.length → pyStrip r ≠ [] →
      (handle_speech_reply ai).2 = r.take 997 ++ "...".toList) ∧
    (ai = none → (handle_speech_reply ai).2 = genericFallbackAnswer) ∧
    (∀ r, ai = some r → pyStrip r = [] →
      (handle_speech_reply ai).2 = genericFallbackAnswer) ∧
    genericFallbackAnswer ≠ [] := by
  have h3 : ("...".toList).length = 3 := by decide
  refine ⟨rfl, ?_, ?_, ?_, ?_, ?_⟩
  · cases ai with
    | none =>
        rw [speech_reply_none, generic_len]
        omega
    | some r =>
        by_cases hstrip : pyStrip r = []
        · rw [speech_reply_invalid r hstrip, generic_len]
          omega
        · have hne : r ≠ [] := by
            intro h
            subst h
            exact hstrip rfl
          rw [speech_reply_valid r hne hstrip]
          split_ifs with h
          · simp only [List.length_append, List.length_take, h3]
            omega
          · omega
  · intro r hr hlen hstrip
    subst hr
    have hne : r ≠ [] := by
      intro h
      subst h
      exact hstrip rfl
    rw [speech_reply_valid r hne hstrip, if_pos hlen]
  · intro hr
    subst hr
    exact speech_reply_none
  · intro r hr hstrip
    subst hr
    exact speech_reply_invalid r hstrip
  · intro h
    have := congrArg List.length h
    rw [generic_len] at this
    simp at this

/-- C10 witness: the amended theorem at a 1001-character response, at a
non-string response, and at an empty response. -/
theorem C10_witness :
    ((handle_speech_reply (some (List.replicate 1001 'b'))).1 =
       some (List.replicate 1001 'b') ∧
     (handle_speech_reply (some (List.replicate 1001 'b'))).2.length ≤ 1000) ∧
    (1000 < (List.replicate 1001 'b').length ∧
     pyStrip (List.replicate 1001 'b') ≠ [] ∧
     (handle_speech_reply (some (List.replicate 1001 'b'))).2 =
       (List.replicate 1001 'b').take 997 ++ "...".toList) ∧
    (handle_speech_reply none).2 = genericFallbackAnswer ∧
    (pyStrip ([] : List Char) = [] ∧
     (handle_speech_reply (some ([] : List Char))).2 = genericFallbackAnswer) :=
  ⟨⟨(C10_amended_reply (some (List.replicate 1001 'b'))).1,
    (C10_amended_reply (some (List.replicate 1001 'b'))).2.1⟩,
   ⟨by rw [List.length_replicate]; omega,
    pyStrip_ne_nil _ 'b' (List.mem_replicate.mpr ⟨by norm_num, rfl⟩) (by decide),
    (C10_amended_reply (some (List.replicate 1001 'b'))).2.2.1 _ rfl
      (by rw [List.length_replicate]; omega)
      (pyStrip_ne_nil _ 'b' (List.mem_replicate.mpr ⟨by norm_num, rfl⟩) (by decide))⟩,
   (C10_amended_reply none).2.2.2.1 rfl,
   ⟨rfl, (C10_amended_reply (some ([] : List Char))).2.2.2.2.1 [] rfl rfl⟩⟩

/-- Join text segments with single spaces. -/
def joinSpace : List (List Char) → List Char
  | [] => []
  | [s] => s
  | s :: t :: rest => s ++ ' ' :: joinSpace (t :: rest)

/-- Is the first character present and not whitespace? -/
def headNotSpace (s : List Char) : Bool :=
  match s with
  | [] => false
  | c :: _ => !isSpaceChar c

/-- A "hygienic" sentence: non-empty, with non-whitespace first and last
characters (true of every sentence the splitter produces from ordinary
text). -/
def hygienicB (s : List Char) : Bool :=
  headNotSpace s && headNotSpace s.reverse

theorem headNotSpace_ne_nil (s : List Char) (h : headNotSpace s = true) : s ≠ [] := by
  cases s
  · cases h
  · simp

theorem headNotSpace_append_left (a b : List Char) (h : headNotSpace a = true) :
    headNotSpace (a ++ b) = true := by
  cases a
  · cases h
  · simpa [headNotSpace] using h

theorem hygienicB_ne_nil (s : List Char) (h : hygienicB s = true) : s ≠ [] :=
  headNotSpace_ne_nil s (Bool.and_eq_true _ _ |>.mp h).1

theorem dropWhile_eq_self_of_headNotSpace (s : List Char) (h : headNotSpace s = true) :
    s.dropWhile isSpaceChar = s := by
  cases s with
  | nil => rfl
  | cons c rest =>
      rw [List.dropWhile_cons, if_neg]
      simp only [headNotSpace, Bool.not_eq_true'] at h
      simp [h]

/-- Stripping is the identity on hygienic text. -/
theorem pyStrip_hygienic (s : List Char) (h : hygienicB s = true) : pyStrip s = s := by
  obtain ⟨h1, h2⟩ := Bool.and_eq_true _ _ |>.mp h
  unfold pyStrip
  rw [dropWhile_eq_self_of_headNotSpace s h1,
    dropWhile_eq_self_of_headNotSpace s.reverse h2, List.reverse_reverse]

theorem joinSpace_append_singleton (g : List (List Char)) (s : List Char) :
    joinSpace (g ++ [s]) = if g = [] then s else joinSpace g ++ ' ' :: s := by
  induction g with
  | nil => simp [joinSpace]
  | cons a rest ih =>
      cases rest with
      | nil => simp [joinSpace]
      | cons b rest' =>
          rw [if_neg (by simp)]
          have : (a :: b :: rest') ++ [s] = a :: ((b :: rest') ++ [s]) := by simp
          rw [this]
          have hne : (b :: rest') ++ [s] ≠ [] := by simp
          cases hbr : (b :: rest') ++ [s] with
          | nil => exact absurd hbr hne
          | cons x xs =>
              rw [show joinSpace (a :: x :: xs) = a ++ ' ' :: joinSpace (x :: xs) from rfl]
              rw [← hbr, ih, if_neg (by simp)]
              rw [show joinSpace (a :: b :: rest') = a ++ ' ' :: joinSpace (b :: rest')
                from rfl]
              simp

/-- `joinSpace` of non-empty hygienic segments is hygienic. -/
theorem hygienicB_joinSpace (g : List (List Char)) (hne : g ≠ [])
    (h : ∀ s ∈ g, hygienicB s = true) : hygienicB (joinSpace g) = true := by
  induction g with
  | nil => exact absurd rfl hne
  | cons a rest ih =>
      cases rest with
      | nil =>
          simpa [joinSpace] using h a (by simp)
      | cons b rest' =>
          have ha := h a (by simp)
          have hrest : hygienicB (joinSpace (b :: rest')) = true :=
            ih (by simp) (fun s hs => h s (List.mem_cons_of_mem _ hs))
          obtain ⟨ha1, ha2⟩ := Bool.and_eq_true _ _ |>.mp ha
          obtain ⟨hr1, hr2⟩ := Bool.and_eq_true _ _ |>.mp hrest
          rw [show joinSpace (a :: b :: rest') = a ++ ' ' :: joinSpace (b :: rest')
            from rfl]
          unfold hygienicB
          rw [Bool.and_eq_true]
          constructor
          · exact headNotSpace_append_left _ _ ha1
          · rw [List.reverse_append]
            refine headNotSpace_append_left _ _ ?_
            rw [List.reverse_cons]
            exact headNotSpace_append_left _ _ hr2

theorem joinSpace_length (g : List (List Char)) (hne : g ≠ []) :
    (joinSpace g).length = (g.map List.length).sum + (g.length - 1) := by
  induction g with
  | nil => exact absurd rfl hne
  | cons a rest ih =>
      cases rest with
      | nil => simp [joinSpace]
      | cons b rest' =>
          rw [show joinSpace (a :: b :: rest') = a ++ ' ' :: joinSpace (b :: rest')
            from rfl]
          have := ih (by simp)
          simp only [List.length_append, List.length_cons, this, List.map_cons,
            List.sum_cons]
          omega

theorem joinSpace_append (a b : List (List Char)) (ha : a ≠ []) (hb : b ≠ []) :
    joinSpace (a ++ b) = joinSpace a ++ ' ' :: joinSpace b := by
  induction a with
  | nil => exact absurd rfl ha
  | cons x xs ih =>
      cases xs with
      | nil =>
          cases b with
          | nil => exact absurd rfl hb
          | cons y ys =>
              rw [show ([x] : List (List Char)) ++ y :: ys = x :: y :: ys from rfl]
              rfl
      | cons z zs =>
          rw [show (x :: z :: zs) ++ b = x :: ((z :: zs) ++ b) from rfl]
          have hzb : (z :: zs) ++ b ≠ [] := by simp
          cases hc : (z :: zs) ++ b with
          | nil => exact absurd hc hzb
          | cons w ws =>
              rw [show joinSpace (x :: w :: ws) = x ++ ' ' :: joinSpace (w :: ws)
                from rfl]
              rw [← hc, ih (by simp)]
              rw [show joinSpace (x :: z :: zs) = x ++ ' ' :: joinSpace (z :: zs)
                from rfl]
              simp

theorem flatten_ne_nil (gs : List (List (List Char))) (g : List (List Char))
    (hg : g ∈ gs) (hne : g ≠ []) : gs.flatten ≠ [] := by
  intro h
  rw [List.flatten_eq_nil_iff] at h
  exact hne (h g hg)

/-- Joining the per-group joins equals joining the flattened sentence
list, for non-empty groups. -/
theorem joinSpace_flatten (gs : List (List (List Char)))
    (h : ∀ g ∈ gs, g ≠ []) :
    joinSpace (gs.map joinSpace) = joinSpace gs.flatten := by
  induction gs with
  | nil => rfl
  | cons g rest ih =>
      cases rest with
      | nil => simp [joinSpace]
      | cons g' rest' =>
          have hg : g ≠ [] := h g (by simp)
          have hflat : (g' :: rest').flatten ≠ [] :=
            flatten_ne_nil _ g' (by simp) (h g' (by simp))
          rw [List.map_cons]
          have hmapne : (g' :: rest').map joinSpace ≠ [] := by simp
          cases hm : (g' :: rest').map joinSpace with
          | nil => exact absurd hm hmapne
          | cons j js =>
              rw [show joinSpace (joinSpace g :: j :: js) =
                joinSpace g ++ ' ' :: joinSpace (j :: js) from rfl]
              rw [← hm, ih (fun g hg' => h g (List.mem_cons_of_mem _ hg'))]
              rw [show (g :: g' :: rest').flatten = g ++ (g' :: rest').flatten from rfl]
              rw [joinSpace_append g _ hg hflat]

/-- The greedy packing loop partitions the pending hygienic sentences into
consecutive non-empty groups, each a single sentence or of total sentence
length at most `m`, and emits each group joined by single spaces. -/
theorem packLoop_partition (m : Nat) (L : List (List Char)) :
    ∀ (gcur : List (List Char)) (accGs : List (List (List Char))),
    (∀ s ∈ L, hygienicB s = true) →
    (∀ s ∈ gcur, hygienicB s = true) →
    (gcur = [] ∨ gcur.length = 1 ∨ (gcur.map List.length).sum ≤ m) →
    ∃ gs : List (List (List Char)),
      packLoop m L (joinSpace gcur) (accGs.map joinSpace) = (accGs ++ gs).map joinSpace ∧
      gs.flatten = gcur ++ L ∧
      ∀ g ∈ gs, g ≠ [] ∧ (∀ s ∈ g, hygienicB s = true) ∧
        (g.length = 1 ∨ (g.map List.length).sum ≤ m) := by
  induction L with
  | nil =>
      intro gcur accGs hL hgc hcur
      by_cases hg : gcur = []
      · subst hg
        refine ⟨[], by simp [packLoop, joinSpace], by simp, by simp⟩
      · have hjh := hygienicB_joinSpace gcur hg hgc
        have hjne : joinSpace gcur ≠ [] := hygienicB_ne_nil _ hjh
        refine ⟨[gcur], ?_, by simp, ?_⟩
        · simp only [packLoop]
          rw [if_neg hjne, pyStrip_hygienic _ hjh]
          simp
        · intro g hgmem
          rw [List.mem_singleton] at hgmem
          subst hgmem
          rcases hcur with h | h
          · exact absurd h hg
          · exact ⟨hg, hgc, h⟩
  | cons s rest ih =>
      intro gcur accGs hL hgc hcur
      have hs := hL s (by simp)
      have hLrest : ∀ t ∈ rest, hygienicB t = true :=
        fun t ht => hL t (List.mem_cons_of_mem _ ht)
      have hcs : ∀ t ∈ gcur ++ [s], hygienicB t = true := by
        intro t ht
        rcases List.mem_append.mp ht with h | h
        · exact hgc t h
        · rw [List.mem_singleton] at h
          subst h
          exact hs
      have hss : ∀ t ∈ ([s] : List (List Char)), hygienicB t = true := by
        intro t ht
        rw [List.mem_singleton] at ht
        subst ht
        exact hs
      simp only [packLoop]
      by_cases hle : (joinSpace gcur).length + s.length ≤ m
      · rw [if_pos hle]
        have hcur' : joinSpace (gcur ++ [s]) =
            (if joinSpace gcur = [] then s else joinSpace gcur ++ ' ' :: s) := by
          rw [joinSpace_append_singleton]
          by_cases hg : gcur = []
          · subst hg
            simp [joinSpace]
          · rw [if_neg hg,
              if_neg (hygienicB_ne_nil _ (hygienicB_joinSpace gcur hg hgc))]
        rw [← hcur']
        have hinv : (gcur ++ [s]) = [] ∨ (gcur ++ [s]).length = 1 ∨
            ((gcur ++ [s]).map List.length).sum ≤ m := by
          by_cases hg : gcur = []
          · subst hg
            right; left
            simp
          · right; right
            have hlen := joinSpace_length gcur hg
            simp only [List.map_append, List.sum_append, List.map_cons, List.sum_cons,
              List.map_nil, List.sum_nil]
            omega
        obtain ⟨gs, h1, h2, h3⟩ := ih (gcur ++ [s]) accGs hLrest hcs hinv
        refine ⟨gs, h1, ?_, h3⟩
        rw [h2]
        simp
      · rw [if_neg hle]
        by_cases hg : gcur = []
        · subst hg
          rw [show joinSpace ([] : List (List Char)) = [] from rfl, if_pos rfl]
          obtain ⟨gs, h1, h2, h3⟩ := ih [s] accGs hLrest hss (Or.inr (Or.inl rfl))
          exact ⟨gs, by simpa [joinSpace] using h1, by simpa using h2, h3⟩
        · have hjh := hygienicB_joinSpace gcur hg hgc
          have hjne : joinSpace gcur ≠ [] := hygienicB_ne_nil _ hjh
          rw [if_neg hjne, pyStrip_hygienic _ hjh]
          obtain ⟨gs, h1, h2, h3⟩ := ih [s] (accGs ++ [gcur]) hLrest hss
            (Or.inr (Or.inl rfl))
          rw [show joinSpace [s] = s from rfl] at h1
          rw [show (accGs ++ [gcur]).map joinSpace =
            accGs.map joinSpace ++ [joinSpace gcur] by simp] at h1
          refine ⟨gcur :: gs, ?_, ?_, ?_⟩
          · rw [h1]
            congr 1
            simp
          · rw [show (gcur :: gs).flatten = gcur ++ gs.flatten from rfl, h2]
            simp
          · intro g hgm
            rcases List.mem_cons.mp hgm with h | h
            · subst h
              refine ⟨hg, hgc, ?_⟩
              rcases hcur with hx | hx
              · exact absurd hx hg
              · exact hx
            · exact h3 g h

/-- C3 counterexample.  First part: for `"abcd. fghi."` with `max_len = 10`
the greedy check ignores the joining space, producing a single 11-character
chunk that is not a single sentence.  Second part: a leading space is
stripped from the first chunk, so rejoining the chunks with single spaces
does not reproduce the sentences. -/
theorem C3_counterexample :
    (chunk_response "abcd. fghi.".toList 10 = ["abcd. fghi.".toList] ∧
     ("abcd. fghi.".toList).length = 11 ∧
     splitSentences "abcd. fghi.".toList = ["abcd.".toList, "fghi.".toList] ∧
     "abcd. fghi.".toList ∉ splitSentences "abcd. fghi.".toList) ∧
    joinSpace (chunk_response " abcd. fghi.".toList 10) ≠
      joinSpace (splitSentences " abcd. fghi.".toList) := by
  have hsplit1 : splitSentences "abcd. fghi.".toList =
      ["abcd.".toList, "fghi.".toList] := by
    simp +decide [splitSentences, splitSentencesGo_cons, splitSentencesGo_nil,
      List.dropWhile_cons]
  have hsplit2 : splitSentences " abcd. fghi.".toList =
      [" abcd.".toList, "fghi.".toList] := by
    simp +decide [splitSentences, splitSentencesGo_cons, splitSentencesGo_nil,
      List.dropWhile_cons]
  have hchunk1 : chunk_response "abcd. fghi.".toList 10 =
      ["abcd. fghi.".toList] := by
    unfold chunk_response
    rw [if_neg (by decide), hsplit1]
    decide
  have hchunk2 : chunk_response " abcd. fghi.".toList 10 =
      ["abcd.".toList, "fghi.".toList] := by
    unfold chunk_response
    rw [if_neg (by decide), hsplit2]
    decide
  refine ⟨⟨hchunk1, by decide, hsplit1, ?_⟩, ?_⟩
  · rw [hsplit1]
    decide
  · rw [hchunk2, hsplit2]
    decide

/-- C3 (amended): for a text longer than `max_len` whose sentences are all
hygienic (non-empty, no leading or trailing whitespace — true of ordinary
prose), the chunks partition the sentences into consecutive non-empty
groups rejoined with single spaces — so concatenating the chunks with
single spaces reproduces the sentences in order — and every chunk is either
a single sentence (possibly longer than `max_len`) or a group whose total
sentence length (excluding the inserted joining spaces) is at most
`max_len`; hence a multi-sentence chunk exceeds `max_len` by at most its
number of joining spaces. -/
theorem C3_amended_chunker (text : List Char) (m : Nat)
    (hlen : m < text.length)
    (hyg : ∀ s ∈ splitSentences text, hygienicB s = true) :
    ∃ gs : List (List (List Char)),
      chunk_response text m = gs.map joinSpace ∧
      gs.flatten = splitSentences text ∧
      (∀ g ∈ gs, g ≠ [] ∧ (g.length = 1 ∨ (g.map List.length).sum ≤ m) ∧
        (∀ chunk, chunk = joinSpace g → g.length = 1 → chunk ∈ splitSentences text)) ∧
      joinSpace (chunk_response text m) = joinSpace (splitSentences text) := by
  unfold chunk_response
  rw [if_neg (by omega)]
  obtain ⟨gs, h1, h2, h3⟩ :=
    packLoop_partition m (splitSentences text) [] [] hyg (by simp) (Or.inl rfl)
  rw [show joinSpace ([] : List (List Char)) = [] from rfl] at h1
  simp only [List.map_nil, List.nil_append] at h1
  simp only [List.nil_append] at h2
  refine ⟨gs, h1, h2, ?_, ?_⟩
  · intro g hg
    obtain ⟨hne, hhyg, hbound⟩ := h3 g hg
    refine ⟨hne, hbound, ?_⟩
    intro chunk hchunk hlen1
    subst hchunk
    cases g with
    | nil => exact absurd rfl hne
    | cons x xs =>
        cases xs with
        | nil =>
            rw [show joinSpace [x] = x from rfl, ← h2]
            exact List.mem_flatten.mpr ⟨[x], hg, by simp⟩
        | cons y ys => simp at hlen1
  · rw [h1, ← h2]
    exact joinSpace_flatten gs (fun g hg => (h3 g hg).1)

/-- C3 witness: the amended theorem at a three-sentence text with
`max_len = 12`. -/
theorem C3_witness :
    (12 < ("Hi there. How are you? Fine.".toList).length ∧
     (∀ s ∈ splitSentences "Hi there. How are you? Fine.".toList, hygienicB s = true)) ∧
    (∃ gs : List (List (List Char)),
      chunk_response "Hi there. How are you? Fine.".toList 12 = gs.map joinSpace ∧
      gs.flatten = splitSentences "Hi there. How are you? Fine.".toList ∧
      (∀ g ∈ gs, g ≠ [] ∧ (g.length = 1 ∨ (g.map List.length).sum ≤ 12) ∧
        (∀ chunk, chunk = joinSpace g → g.length = 1 →
          chunk ∈ splitSentences "Hi there. How are you? Fine.".toList)) ∧
      joinSpace (chunk_response "Hi there. How are you? Fine.".toList 12) =
        joinSpace (splitSentences "Hi there. How are you? Fine.".toList)) := by
  have hsplit : splitSentences "Hi there. How are you? Fine.".toList =
      ["Hi there.".toList, "How are you?".toList, "Fine.".toList] := by
    simp +decide [splitSentences, splitSentencesGo_cons, splitSentencesGo_nil,
      List.dropWhile_cons]
  have hyg : ∀ s ∈ splitSentences "Hi there. How are you? Fine.".toList,
      hygienicB s = true := by
    rw [hsplit]
    decide
  exact ⟨⟨by decide, hyg⟩,
    C3_amended_chunker "Hi there. How are you? Fine.".toList 12 (by decide) hyg⟩
